import Mathlib

/-!
A shallow embedding of the `sgmock` query engine (`sgmock/filters.py` and
`sgmock/shotgun.py`): an in-memory mock of the Shotgun entity database.
Python values are modelled by `SGValue`, records by ordered association
lists (Python dicts preserve insertion order), fallible Python code by
`Except`.
-/

namespace Sgmock

/-- Python `datetime.date`. -/
structure PyDate where
  year : Nat
  month : Nat
  day : Nat
deriving DecidableEq, Repr

/-- Python `datetime.datetime` (naive, as produced by `datetime.utcnow()`). -/
structure PyDateTime where
  year : Nat
  month : Nat
  day : Nat
  hour : Nat
  minute : Nat
  second : Nat
  microsecond : Nat
deriving DecidableEq, Repr

/-- The Python values stored in records and used in filters.  `vnull` is
Python `None`. -/
inductive SGValue where
  | vnull : SGValue
  | vbool (b : Bool) : SGValue
  | vint (n : Int) : SGValue
  | vstr (s : String) : SGValue
  | vdate (d : PyDate) : SGValue
  | vdatetime (d : PyDateTime) : SGValue
  | vlist (xs : List SGValue) : SGValue
  | vdict (m : List (String × SGValue)) : SGValue

/-- A record / Python dict with string keys, in insertion order. -/
abbrev Entity := List (String × SGValue)

/-- `d[k]` lookup in an insertion-ordered mapping. -/
def mget {κ α : Type} [DecidableEq κ] (m : List (κ × α)) (k : κ) : Option α :=
  match m with
  | [] => none
  | (k', v) :: rest => if k' = k then some v else mget rest k

/-- `d[k] = v`: replace in place if the key is present, else append
(Python dict assignment keeps the original key position). -/
def mset {κ α : Type} [DecidableEq κ] (m : List (κ × α)) (k : κ) (v : α) :
    List (κ × α) :=
  match m with
  | [] => [(k, v)]
  | (k', v') :: rest => if k' = k then (k, v) :: rest else (k', v') :: mset rest k v

/-- `d.pop(k, None)` / `del d[k]`: drop the key, keeping the others in order. -/
def merase {κ α : Type} [DecidableEq κ] (m : List (κ × α)) (k : κ) :
    List (κ × α) :=
  m.filter fun kv => kv.1 ≠ k

/-- Python truthiness of an `SGValue`. -/
def pyTruthy : SGValue → Bool
  | .vnull => false
  | .vbool b => b
  | .vint n => n != 0
  | .vstr s => !s.isEmpty
  | .vdate _ => true
  | .vdatetime _ => true
  | .vlist xs => !xs.isEmpty
  | .vdict m => !m.isEmpty

mutual

/-- Python `==` on `SGValue`s.  `True == 1` holds because `bool` is an `int`
subtype.  For dicts we use structural equality of the ordered association
list: Python dict equality ignores key order, but no claim below compares
dicts whose key order differs. -/
def pyEq : SGValue → SGValue → Bool
  | .vnull, .vnull => true
  | .vbool a, .vbool b => a == b
  | .vbool a, .vint n => (if a then (1 : Int) else 0) == n
  | .vint n, .vbool b => n == (if b then (1 : Int) else 0)
  | .vint a, .vint b => a == b
  | .vstr a, .vstr b => a == b
  | .vdate a, .vdate b => a == b
  | .vdatetime a, .vdatetime b => a == b
  | .vlist a, .vlist b => pyEqList a b
  | .vdict a, .vdict b => pyEqDict a b
  | _, _ => false

/-- Element-wise Python `==` on lists. -/
def pyEqList : List SGValue → List SGValue → Bool
  | [], [] => true
  | a :: as, b :: bs => pyEq a b && pyEqList as bs
  | _, _ => false

/-- Entry-wise Python `==` on ordered dict entries. -/
def pyEqDict : List (String × SGValue) → List (String × SGValue) → Bool
  | [], [] => true
  | (k, v) :: as, (k', v') :: bs => k == k' && pyEq v v' && pyEqDict as bs
  | _, _ => false

end

/-- Python `==` on optional values (`None == None` is `True`,
`None == x` is `False` for the values at hand). -/
def optPyEq : Option SGValue → Option SGValue → Bool
  | none, none => true
  | some a, some b => pyEq a b
  | _, _ => false

/-- Decimal digit character. -/
def pyDigitChar : Nat → Char
  | 0 => '0' | 1 => '1' | 2 => '2' | 3 => '3' | 4 => '4'
  | 5 => '5' | 6 => '6' | 7 => '7' | 8 => '8' | 9 => '9'
  | _ => '*'

/-- The decimal digits of `n`, least significant first (empty for 0); the
first argument is fuel, always instantiated with `n` itself. -/
def natDigitsAux : Nat → Nat → List Char
  | 0, _ => []
  | fuel + 1, n =>
      if n = 0 then [] else pyDigitChar (n % 10) :: natDigitsAux fuel (n / 10)

/-- Python `str` on a non-negative integer. -/
def natToString (n : Nat) : String :=
  if n = 0 then "0" else ⟨(natDigitsAux n n).reverse⟩

/-- Python `str` on an integer. -/
def intToString (i : Int) : String :=
  if i < 0 then "-" ++ natToString (-i).toNat else natToString i.toNat

/-- Zero-padded decimal rendering, as `strftime`/`isoformat` produce. -/
def padZeros (k : Nat) (n : Nat) : String :=
  let s := natToString n
  String.mk (List.replicate (k - s.length) '0') ++ s

/-- `datetime.strftime('%Y-%m-%dT%H:%M:%SZ')` (microseconds dropped). -/
def strftimeZ (d : PyDateTime) : String :=
  padZeros 4 d.year ++ "-" ++ padZeros 2 d.month ++ "-" ++ padZeros 2 d.day ++
    "T" ++ padZeros 2 d.hour ++ ":" ++ padZeros 2 d.minute ++ ":" ++
    padZeros 2 d.second ++ "Z"

/-- `filters.match_types`: coerce a datetime/string pair to two strings;
everything else passes through. -/
def match_types : SGValue → SGValue → SGValue × SGValue
  | .vdatetime a, .vstr b => (.vstr (strftimeZ a), .vstr b)
  | .vstr a, .vdatetime b => (.vstr a, .vstr (strftimeZ b))
  | a, b => (a, b)

/-- A compiled filter predicate over a record. -/
abbrev Pred := Entity → Bool

/-- `filters.And`: all child predicates hold (vacuously true on `[]`). -/
def And (filters : List Pred) : Pred := fun entity => filters.all fun f => f entity

/-- `filters.Or`: some child predicate holds (vacuously false on `[]`). -/
def Or (filters : List Pred) : Pred := fun entity => filters.any fun f => f entity

/-- The Python exceptions raised by the mock. -/
inductive SGErr where
  | keyError (k : String) : SGErr
  | valueError (msg : String) : SGErr
  | typeError (msg : String) : SGErr
  | mockError (msg : String) : SGErr
  | shotgunError (msg : String) : SGErr
  | attributeError (msg : String) : SGErr
deriving DecidableEq, Repr

/-- A relation constructor: `op_cls(field, *values)`; a wrong number of
values (or an unhashable set member, for `in`) raises a `TypeError` at
construction time. -/
abbrev RelCtor := String → List SGValue → Except SGErr Pred

/-- `entity.get(field)`: `None` when the key is absent. -/
def egetF (entity : Entity) (field : String) : SGValue :=
  (mget entity field).getD .vnull

/-- `IsFilter.test`: links compare by `type`+`id` only (absent field treated
as `{}`); otherwise plain equality.  When the field value is a truthy
non-mapping and the filter value is a mapping, the source raises an
`AttributeError`; no claim reaches that case. -/
def isTest (value other : SGValue) : Bool :=
  match value with
  | .vdict d =>
      let fd := if pyTruthy other then other else .vdict []
      match fd with
      | .vdict m =>
          optPyEq (mget d "type") (mget m "type") &&
            optPyEq (mget d "id") (mget m "id")
      | _ => false
  | v => pyEq v other

/-- `IsFilter` (a `ScalarFilter`): coerce with `match_types`, then `test`. -/
def IsFilter : RelCtor := fun field values =>
  match values with
  | [v] => .ok fun entity =>
      let p := match_types v (egetF entity field)
      isTest p.1 p.2
  | _ => .error (.typeError "IsFilter takes a field and exactly one value")

/-- Python hashability of a value: lists and dicts are unhashable. -/
def isHashable : SGValue → Bool
  | .vlist _ => false
  | .vdict _ => false
  | _ => true

/-- `InFilter`: set membership.  Building `set(values)` with an unhashable
member (list or dict) raises a `TypeError` at construction.  A field value
that is itself unhashable would raise at evaluation in the source; here it
simply fails every comparison, and no claim reaches that case. -/
def InFilter : RelCtor := fun field values =>
  if values.all isHashable then
    .ok fun entity => values.any fun v => pyEq (egetF entity field) v
  else
    .error (.typeError "unhashable type in InFilter values")

/-- Lexicographic order on equal-length component lists. -/
def lexLt : List Nat → List Nat → Bool
  | a :: as, b :: bs => a < b || (a == b && lexLt as bs)
  | _, _ => false

/-- Python `<` on the values the comparison filters see.  Cross-type
comparisons follow Python-2's arbitrary ordering in the source; no claim
evaluates these predicates, so they are modelled as `false`. -/
def pyLt : SGValue → SGValue → Bool
  | .vint a, .vint b => a < b
  | .vstr a, .vstr b => a < b
  | .vdate a, .vdate b =>
      lexLt [a.year, a.month, a.day] [b.year, b.month, b.day]
  | .vdatetime a, .vdatetime b =>
      lexLt [a.year, a.month, a.day, a.hour, a.minute, a.second, a.microsecond]
        [b.year, b.month, b.day, b.hour, b.minute, b.second, b.microsecond]
  | _, _ => false

/-- `LessThanFilter` for `less_than`: `field < value` after coercion. -/
def LessThanFilter : RelCtor := fun field values =>
  match values with
  | [v] => .ok fun entity =>
      let p := match_types v (egetF entity field)
      pyLt p.2 p.1
  | _ => .error (.typeError "LessThanFilter takes a field and exactly one value")

/-- The (shadowing) `LessThanFilter` registered for `greater_than`:
`field > value` after coercion. -/
def GreaterThanFilter : RelCtor := fun field values =>
  match values with
  | [v] => .ok fun entity =>
      let p := match_types v (egetF entity field)
      pyLt p.1 p.2
  | _ => .error (.typeError "GreaterThanFilter takes a field and exactly one value")

/-- `StartsWithFilter`: `field.startswith(value)`.  A non-string field (or
value) raises in the source; no claim evaluates this predicate on one. -/
def StartsWithFilter : RelCtor := fun field values =>
  match values with
  | [v] => .ok fun entity =>
      let p := match_types v (egetF entity field)
      match p.1, p.2 with
      | .vstr value, .vstr s => s.startsWith value
      | _, _ => false
  | _ => .error (.typeError "StartsWithFilter takes a field and exactly one value")

/-- `EndsWithFilter`: `field.endswith(value)`. -/
def EndsWithFilter : RelCtor := fun field values =>
  match values with
  | [v] => .ok fun entity =>
      let p := match_types v (egetF entity field)
      match p.1, p.2 with
      | .vstr value, .vstr s => s.endsWith value
      | _, _ => false
  | _ => .error (.typeError "EndsWithFilter takes a field and exactly one value")

/-- `filters.NotWrap`: build the wrapped filter with the same arguments and
negate each call. -/
def NotWrap (cls : RelCtor) : RelCtor := fun field values =>
  (cls field values).map fun p => fun entity => !(p entity)

/-- The `_filters` registry as populated by the `register` decorators. -/
def _filters (name : String) : Option RelCtor :=
  if name = "is" then some IsFilter
  else if name = "is_not" then some (NotWrap IsFilter)
  else if name = "in" then some InFilter
  else if name = "not_in" then some (NotWrap InFilter)
  else if name = "less_than" then some LessThanFilter
  else if name = "greater_than" then some GreaterThanFilter
  else if name = "starts_with" then some StartsWithFilter
  else if name = "ends_with" then some EndsWithFilter
  else none

/-- The `MockError('unknown filter relation %r' % op_name)` raised by
`_compile_condition`. -/
def unknownRelationError (op_name : String) : SGErr :=
  .mockError ("unknown filter relation " ++ op_name)

/-- A condition node of a filter expression, as `_compile_condition`
receives it: either a mapping (each Python key modelled by an `Option`
recording its presence) or a flat sequence `[field, relation, *rest]`. -/
inductive Filt where
  | fdict (filter_operator logical_operator : Option String)
      (conditions filters : Option (List Filt))
      (relation path : Option String) (values : Option (List SGValue)) : Filt
  | fflat (field relation : String) (rest : List SGValue) : Filt

/-- The top-level `filters` argument of `_compile_filters`: a mapping (of
which only the four group keys are ever read) or a plain list of
conditions. -/
inductive PyFilters where
  | pdict (filter_operator logical_operator : Option String)
      (conditions filters : Option (List Filt)) : PyFilters
  | plist (conditions : List Filt) : PyFilters

theorem sizeOf_option_pos {α : Type} [SizeOf α] (o : Option α) : 0 < sizeOf o := by
  cases o <;> simp

/-- Look up the relation in the registry and instantiate it, as the tail of
`_compile_condition` does. -/
def applyRelation (op_name field : String) (values : List SGValue) :
    Except SGErr Pred :=
  match _filters op_name with
  | none => .error (unknownRelationError op_name)
  | some op_cls => op_cls field values

mutual

/-- `filters._compile_filters`: determine the operator and the child
conditions.  A mapping is read new-style (`logical_operator`+`conditions`)
first, falling back on `filter_operator` (default `'and'`)+`filters`; a
plain list gets operator `'and'`. -/
def _compile_filters : PyFilters → Except SGErr Pred
  | .pdict fo lo conds filts =>
      match lo, conds with
      | some op, some cs => compileOp op cs
      | _, _ =>
          match filts with
          | some cs => compileOp (fo.getD "and") cs
          | none => .error (.keyError "filters")
  | .plist cs => compileOp "and" cs
termination_by f => sizeOf f + 1
decreasing_by
  all_goals simp_wf
  all_goals omega

/-- Validate the operator (before compiling any child, as the source does)
and combine the compiled children under it. -/
def compileOp (op : String) (conditions : List Filt) : Except SGErr Pred :=
  if op = "any" ∨ op = "or" then
    (compileConds conditions).map Or
  else if op = "all" ∨ op = "and" then
    (compileConds conditions).map And
  else
    .error (.valueError ("Invalid filter_operator " ++ op))
termination_by sizeOf conditions + 1
decreasing_by
  all_goals simp_wf

/-- Compile the conditions left to right; the first error aborts. -/
def compileConds : List Filt → Except SGErr (List Pred)
  | [] => .ok []
  | c :: cs => do
      let p ← _compile_condition c
      let ps ← compileConds cs
      .ok (p :: ps)
termination_by cs => sizeOf cs
decreasing_by
  all_goals simp_wf
  all_goals omega

/-- `filters._compile_condition`: a mapping containing `filter_operator`
recurses into `_compile_filters`; any other mapping is read as
`relation`/`path`/`values` (a missing key raises `KeyError`); a flat
sequence of length 3 whose third element is a list supplies the values as
that list, otherwise everything after field and relation is the values. -/
def _compile_condition : Filt → Except SGErr Pred
  | .fdict fo lo conds filts rel path vals =>
      if fo.isSome then
        _compile_filters (.pdict fo lo conds filts)
      else
        match rel with
        | none => .error (.keyError "relation")
        | some op_name =>
            match path with
            | none => .error (.keyError "path")
            | some field =>
                match vals with
                | none => .error (.keyError "values")
                | some values => applyRelation op_name field values
  | .fflat field op_name rest =>
      match rest with
      | [.vlist vs] => applyRelation op_name field vs
      | _ => applyRelation op_name field rest
termination_by c => sizeOf c
decreasing_by
  all_goals simp_wf
  all_goals
    (have h1 := sizeOf_option_pos rel
     have h2 := sizeOf_option_pos path
     have h3 := sizeOf_option_pos vals
     omega)

end

/-- A per-type id→record map, in insertion order. -/
abbrev TypeStore := List (Int × Entity)

/-- The mock server state (`Shotgun.__init__`): live store, per-type id
counters, deleted store.  The `collections.defaultdict` reads are modelled
by defaulting to an empty map / counter `0`. -/
structure Shotgun where
  _store : List (String × TypeStore)
  _ids : List (String × Int)
  _deleted : List (String × TypeStore)

/-- `store[entity_type]` on a `defaultdict(dict)`. -/
def storeGet (store : List (String × TypeStore)) (t : String) : TypeStore :=
  (mget store t).getD []

/-- `Shotgun._entity_exists`: `entity['id'] in self._store[entity['type']]`;
a missing `type` or `id` key raises `ShotgunError`.  A non-string type or a
non-integer id can never hit an entry of the (string→int→record) store. -/
def _entity_exists (sg : Shotgun) (entity : List (String × SGValue)) :
    Except SGErr Bool :=
  match mget entity "type", mget entity "id" with
  | some t, some i =>
      match t, i with
      | .vstr ts, .vint idn => .ok ((mget (storeGet sg._store ts) idn).isSome)
      | _, _ => .ok false
  | _, _ => .error (.shotgunError "entity does not have type and id")

/-- Modelled from the spec: `minimize` lives in `sgmock/utils.py`, which is
not under `src/`.  Per the spec, a minimal copy starts from "a record
reduced to `{type, id}`": keep exactly the record's `type` and `id`
entries. -/
def minimize (entity : Entity) : Entity :=
  (match mget entity "type" with | some t => [("type", t)] | none => []) ++
    (match mget entity "id" with | some i => [("id", i)] | none => [])

/-- Modelled from the spec: `is_entity` lives in `sgmock/utils.py`, which is
not under `src/`.  Per the spec a link is "a mapping of `{type, id}`
referencing another record": test for a mapping carrying both keys. -/
def is_entity : SGValue → Bool
  | .vdict m => (mget m "type").isSome && (mget m "id").isSome
  | _ => false

/-- `Shotgun._resolve_link`: `store[type].get(id) or deleted[type].get(id)`
(a falsy live hit falls through to the deleted store); a link without
`type` and `id` keys raises `ShotgunError`. -/
def _resolve_link (sg : Shotgun) (link : List (String × SGValue)) :
    Except SGErr (Option Entity) :=
  match mget link "type", mget link "id" with
  | some t, some i =>
      match t, i with
      | .vstr ts, .vint idn =>
          .ok (match mget (storeGet sg._store ts) idn with
            | some e => if e.isEmpty then mget (storeGet sg._deleted ts) idn else some e
            | none => mget (storeGet sg._deleted ts) idn)
      | _, _ => .ok none
  | _, _ => .error (.shotgunError "malformed entity link")

/-- ASCII `\w`, as in the byte-level pattern `_deep_lookup_re`. -/
def isWordChar (c : Char) : Bool := c.isAlphanum || c = '_'

/-- `str.split` on a single character (`''.split('.') == ['']`). -/
def splitOnChar (c : Char) (cs : List Char) : List (List Char) :=
  match cs with
  | [] => [[]]
  | x :: rest =>
      match splitOnChar c rest with
      | [] => [[x]]
      | g :: gs => if x = c then [] :: g :: gs else (x :: g) :: gs

/-- `field.split('.')`. -/
def splitDots (s : String) : List String :=
  (splitOnChar '.' s.toList).map fun g => ⟨g⟩

/-- `_deep_lookup_re.match(field)` for `^(\w+)\.(\w+)\.([^.]+)`: an
unanchored prefix match, so segments after the third are ignored
(`entity.Shot.code.more` matches the same as `entity.Shot.code`). -/
def _deep_lookup_match (field : String) : Option (String × String × String) :=
  match splitDots field with
  | s0 :: s1 :: s2 :: _ =>
      if !s0.isEmpty && s0.toList.all isWordChar && !s1.isEmpty &&
          s1.toList.all isWordChar && !s2.isEmpty then
        some (s0, s1, s2)
      else none
  | _ => none

/-- `Shotgun._lookup_field`: direct hit first; otherwise the one-hop
deep-link pattern; otherwise dotted-looking fields give `None`, a field
with an empty segment raises `ShotgunError`, and a plain missing field
raises `KeyError` (which `_minimal_copy` skips). -/
def _lookup_field (sg : Shotgun) (entity : Entity) (field : String) :
    Except SGErr SGValue :=
  if entity.isEmpty then .ok .vnull
  else
    match mget entity field with
    | some v => .ok v
    | none =>
        match _deep_lookup_match field with
        | none =>
            let parts := splitDots field
            if parts.any String.isEmpty then
              .error (.shotgunError ("malformed field " ++ field))
            else if parts.length > 1 then .ok .vnull
            else .error (.keyError field)
        | some (local_field, link_type, deep_field) =>
            match mget entity local_field with
            | none => .error (.keyError field)
            | some link =>
                match link with
                | .vdict linkd =>
                    match mget linkd "type" with
                    | none => .error (.keyError "type")
                    | some lt =>
                        if pyEq lt (.vstr link_type) then
                          match _resolve_link sg linkd with
                          | .error e => .error e
                          | .ok none =>
                              .error (.attributeError
                                "NoneType object has no attribute get")
                          | .ok (some linked) => .ok (egetF linked deep_field)
                        else .ok .vnull
                | _ => .error (.keyError field)

/-- `None` → `vnull`, a dict result stays a dict. -/
def optEntityVal : Option Entity → SGValue
  | none => .vnull
  | some d => .vdict d

/-- A list element in `_minimal_copy`: entity links are minimized
(`_minimal_copy(x)` with no requested fields), everything else passes. -/
def minimalElem : SGValue → SGValue
  | .vdict d =>
      if is_entity (.vdict d) then
        if d.isEmpty then .vnull else .vdict (minimize d)
      else .vdict d
  | v => v

mutual

/-- `Shotgun._minimal_copy`: `None` or a falsy record gives `None`;
otherwise `minimize` plus each resolvable requested field.  The `fuel`
bounds the recursion through linked records' `name` fields, which in the
source is bounded only by Python's recursion limit; no claim depends on
the bound. -/
def _minimal_copy (sg : Shotgun) (fuel : Nat) (entity : Option Entity)
    (fields : Option (List String)) : Except SGErr (Option Entity) :=
  match entity with
  | none => .ok none
  | some e =>
      if e.isEmpty then .ok none
      else (minimalFields sg fuel e (fields.getD []) (minimize e)).map some
termination_by (fuel, (fields.getD []).length + 1)

/-- The `for field in fields or ()` loop of `_minimal_copy`: a `KeyError`
from `_lookup_field` skips the field, other errors propagate; a link value
is replaced by a minimal copy (with `name`) of the resolved record; list
values minimize their link elements; anything else is copied as is. -/
def minimalFields (sg : Shotgun) (fuel : Nat) (e : Entity) :
    List String → Entity → Except SGErr Entity
  | [], minimal => .ok minimal
  | field :: rest, minimal =>
      match _lookup_field sg e field with
      | .error (.keyError _) => minimalFields sg fuel e rest minimal
      | .error err => .error err
      | .ok v =>
          match v with
          | .vdict linkd =>
              if is_entity (.vdict linkd) then
                match fuel with
                | 0 => .error (.mockError "recursion limit exceeded")
                | fuel' + 1 =>
                    match _resolve_link sg linkd with
                    | .error err => .error err
                    | .ok resolved =>
                        match _minimal_copy sg fuel' resolved (some ["name"]) with
                        | .error err => .error err
                        | .ok sub =>
                            minimalFields sg (fuel' + 1) e rest
                              (mset minimal field (optEntityVal sub))
              else minimalFields sg fuel e rest (mset minimal field (.vdict linkd))
          | .vlist xs =>
              minimalFields sg fuel e rest
                (mset minimal field (.vlist (xs.map minimalElem)))
          | v' => minimalFields sg fuel e rest (mset minimal field v')
termination_by flds _ => (fuel, flds.length)

end

/-- The recursion bound handed to `_minimal_copy`; it stands in for
Python's recursion limit and is never reached by any claim below. -/
def recursionFuel : Nat := 1000

/-- Modelled from the spec: `sgmock/events.py` is not under `src/` and the
spec places event logging out of scope, so event generation is modelled as
leaving the state unchanged. -/
def generateEventsNoop (sg : Shotgun) : Shotgun := sg

mutual

/-- `Shotgun._reduce_links`: a mapping with both `type` and `id` is a link:
it degrades to `None` when the referenced entity is not in the live store
and to a minimal `{type, id}` copy otherwise; other mappings reduce their
values; sequences reduce element-wise; scalars pass through. -/
def _reduce_links (sg : Shotgun) : SGValue → Except SGErr SGValue
  | .vdict d =>
      if (mget d "type").isSome && (mget d "id").isSome then
        match _entity_exists sg d with
        | .error err => .error err
        | .ok b =>
            if !b then .ok .vnull
            else
              match _minimal_copy sg recursionFuel (some d) none with
              | .error err => .error err
              | .ok m => .ok (optEntityVal m)
      else (reduceDict sg d).map .vdict
  | .vlist xs => (reduceList sg xs).map .vlist
  | v => .ok v

/-- `{k: self._reduce_links(v) for ...}` over the entries in order. -/
def reduceDict (sg : Shotgun) :
    List (String × SGValue) → Except SGErr (List (String × SGValue))
  | [] => .ok []
  | (k, v) :: rest => do
      let v' ← _reduce_links sg v
      let rest' ← reduceDict sg rest
      .ok ((k, v') :: rest')

/-- `list(self._reduce_links(x) for x in data)`. -/
def reduceList (sg : Shotgun) : List SGValue → Except SGErr (List SGValue)
  | [] => .ok []
  | x :: rest => do
      let x' ← _reduce_links sg x
      let rest' ← reduceList sg rest
      .ok (x' :: rest')

end

/-- `Shotgun._create_or_update`.  With `entity_id = None` a new record is
made: the fresh id is the counter + 1, unless `data` supplies an `id` that
is absent from the live store (a live duplicate raises `ShotgunError`); the
counter moves up to the new id if larger.  With an id, the record must
exist (the raw `KeyError` of the TODO-documented gap).  Either way
`updated_at` is stamped and the link-reduced `data` (minus `id`) is merged
into the stored record.  `now` models `datetime.utcnow()`; ids are integers
throughout this model (the source would accept any explicit id value). -/
def _create_or_update (sg : Shotgun) (now : PyDateTime) (entity_type : String)
    (entity_id : Option Int) (data : Entity) :
    Except SGErr (Entity × Shotgun) := do
  let (entity, sg1) ←
    match entity_id with
    | none => do
        let curId := (mget sg._ids entity_type).getD 0
        let newId ←
          match mget data "id" with
          | some (.vint i) =>
              if (mget (storeGet sg._store entity_type) i).isSome then
                Except.error (.shotgunError
                  ("there is already a " ++ entity_type ++ " record with that id"))
              else Except.ok i
          | some _ => Except.error (.typeError "non-integer explicit id")
          | none => Except.ok (curId + 1)
        let entity : Entity :=
          [("type", .vstr entity_type), ("id", .vint newId),
            ("created_at", .vdatetime now)]
        let sg1 : Shotgun :=
          { sg with
            _ids := mset sg._ids entity_type (max newId curId),
            _store := mset sg._store entity_type
              (mset (storeGet sg._store entity_type) newId entity) }
        Except.ok (entity, sg1)
    | some eid =>
        match mget (storeGet sg._store entity_type) eid with
        | none => Except.error (.keyError (toString eid))
        | some e => Except.ok (e, sg)
  let entity := mset entity "updated_at" (.vdatetime now)
  let data' := merase data "id"
  let reduced ← reduceDict sg1 data'
  let entity := reduced.foldl (fun acc kv => mset acc kv.1 kv.2) entity
  let eid := mget entity "id"
  let sg2 : Shotgun :=
    match eid with
    | some (.vint i) =>
        { sg1 with
          _store := mset sg1._store entity_type
            (mset (storeGet sg1._store entity_type) i entity) }
    | _ => sg1
  .ok (entity, sg2)

/-- `Shotgun.create`: `_create_or_update` with a fresh id, then a minimal
copy carrying the supplied data keys plus any requested return fields. -/
def create (sg : Shotgun) (now : PyDateTime) (entity_type : String)
    (data : Entity) (return_fields : Option (List String)) :
    Except SGErr (Option Entity × Shotgun) := do
  let (entity, sg') ← _create_or_update sg now entity_type none data
  let sg' := generateEventsNoop sg'
  let ret ← _minimal_copy sg' recursionFuel (some entity)
    (some (data.map (fun kv => kv.1) ++ return_fields.getD []))
  .ok (ret, sg')

/-- `Shotgun.delete`: pop from the live map; a truthy popped record is
archived in the deleted map; returns whether it existed. -/
def delete (sg : Shotgun) (entity_type : String) (entity_id : Int) :
    Bool × Shotgun :=
  let tstore := storeGet sg._store entity_type
  match mget tstore entity_id with
  | none => (false, sg)
  | some entity =>
      let sg' : Shotgun :=
        { sg with _store := mset sg._store entity_type (merase tstore entity_id) }
      if entity.isEmpty then (false, sg')
      else
        (true, generateEventsNoop
          { sg' with
            _deleted := mset sg._deleted entity_type
              (mset (storeGet sg._deleted entity_type) entity_id entity) })

/-- `Shotgun.revive`: pop from the deleted map and restore to the live map;
returns whether it existed in the deleted map. -/
def revive (sg : Shotgun) (entity_type : String) (entity_id : Int) :
    Bool × Shotgun :=
  let tdel := storeGet sg._deleted entity_type
  match mget tdel entity_id with
  | none => (false, sg)
  | some entity =>
      let sg' : Shotgun :=
        { sg with _deleted := mset sg._deleted entity_type (merase tdel entity_id) }
      if entity.isEmpty then (false, sg')
      else
        (true, generateEventsNoop
          { sg' with
            _store := mset sg._store entity_type
              (mset (storeGet sg._store entity_type) entity_id entity) })

/-- `Shotgun.find`: select the live or deleted store, compile the filters,
keep the records satisfying the predicate in insertion order, page with
`limit` clamped to `[1, 500]` and zero-based offset `max(0, page-1) *
limit`, and return minimal copies for the requested fields.  The ignored
`order` and `filter_operator` parameters are omitted. -/
def find (sg : Shotgun) (entity_type : String) (filters : PyFilters)
    (fields : Option (List String)) (limit : Int) (retired_only : Bool)
    (page : Int) : Except SGErr (List (Option Entity)) := do
  let store := if retired_only then sg._deleted else sg._store
  let entities := (storeGet store entity_type).map fun kv => kv.2
  let compiled ← _compile_filters filters
  let matched := entities.filter compiled
  let limit' := max 1 (min 500 limit)
  let start := (max 0 (page - 1) * limit').toNat
  let sliced := (matched.drop start).take limit'.toNat
  sliced.mapM fun e => _minimal_copy sg recursionFuel (some e) fields

/-! JSON snapshot export/import (`sgmock_json_dump` / `sgmock_json_load`).
The textual JSON layer is modelled by a JSON value tree; `json.dump`
followed by `json.load` is the identity on that tree, with int dict keys
stringified by `str` and read back with `int`. -/

/-- A JSON value. -/
inductive JVal where
  | jnull : JVal
  | jbool (b : Bool) : JVal
  | jint (n : Int) : JVal
  | jstr (s : String) : JVal
  | jlist (xs : List JVal) : JVal
  | jdict (m : List (String × JVal)) : JVal

/-- The accumulator the digit parsers below fold with. -/
def valDigits (acc : Nat) (cs : List Char) : Nat :=
  cs.foldl (fun a c => a * 10 + (c.toNat - 48)) acc

/-- A nonempty all-digit run, as `int` accepts after the sign. -/
def digitsVal? (cs : List Char) : Option Nat :=
  if !cs.isEmpty && cs.all Char.isDigit then some (valDigits 0 cs) else none

/-- Python `int(s)` (sign and digits; the whitespace and `+` tolerance of
`int` is irrelevant to `str(i)` round-trips). -/
def pyInt? (s : String) : Option Int :=
  match s.toList with
  | c :: rest =>
      if c = '-' then (digitsVal? rest).map fun n => -(n : Int)
      else (digitsVal? (c :: rest)).map fun n => (n : Int)
  | [] => none

/-- `datetime.date.isoformat()`. -/
def isoformatDate (d : PyDate) : String :=
  padZeros 4 d.year ++ "-" ++ padZeros 2 d.month ++ "-" ++ padZeros 2 d.day

/-- `datetime.datetime.isoformat()` (microseconds only when nonzero). -/
def isoformatDateTime (d : PyDateTime) : String :=
  padZeros 4 d.year ++ "-" ++ padZeros 2 d.month ++ "-" ++ padZeros 2 d.day ++
    "T" ++ padZeros 2 d.hour ++ ":" ++ padZeros 2 d.minute ++ ":" ++
    padZeros 2 d.second ++
    (if d.microsecond ≠ 0 then "." ++ padZeros 6 d.microsecond else "")

mutual

/-- `json.dump`'s encoding of a record value, with the `serialize` default
of `sgmock_json_dump`: datetimes become `isoformat() + 'Z'`, dates become
`isoformat()`. -/
def serialize : SGValue → JVal
  | .vnull => .jnull
  | .vbool b => .jbool b
  | .vint n => .jint n
  | .vstr s => .jstr s
  | .vdate d => .jstr (isoformatDate d)
  | .vdatetime d => .jstr (isoformatDateTime d ++ "Z")
  | .vlist xs => .jlist (serializeList xs)
  | .vdict m => .jdict (serializeDict m)

def serializeList : List SGValue → List JVal
  | [] => []
  | x :: xs => serialize x :: serializeList xs

def serializeDict : List (String × SGValue) → List (String × JVal)
  | [] => []
  | (k, v) :: rest => (k, serialize v) :: serializeDict rest

end

/-- The serialized live store: type → `str(id)` → encoded record. -/
def sgmock_json_dump (sg : Shotgun) :
    List (String × List (String × List (String × JVal))) :=
  sg._store.map fun tp =>
    (tp.1, tp.2.map fun ie =>
      (intToString ie.1, ie.2.map fun kv => (kv.1, serialize kv.2)))

mutual

/-- A loaded JSON value that the date-string conversion did not touch. -/
def jToSG : JVal → SGValue
  | .jnull => .vnull
  | .jbool b => .vbool b
  | .jint n => .vint n
  | .jstr s => .vstr s
  | .jlist xs => .vlist (jToSGList xs)
  | .jdict m => .vdict (jToSGDict m)

def jToSGList : List JVal → List SGValue
  | [] => []
  | x :: xs => jToSG x :: jToSGList xs

def jToSGDict : List (String × JVal) → List (String × SGValue)
  | [] => []
  | (k, v) :: rest => (k, jToSG v) :: jToSGDict rest

end

/-- Consume exactly `k` decimal digits, extending the accumulator. -/
def parseDigits : Nat → Nat → List Char → Option (Nat × List Char)
  | 0, acc, cs => some (acc, cs)
  | k + 1, acc, cs =>
      match cs with
      | c :: rest =>
          if c.isDigit then parseDigits k (acc * 10 + (c.toNat - 48)) rest
          else none
      | [] => none

/-- Consume one expected character. -/
def expectChar (c : Char) : List Char → Option (List Char)
  | c' :: rest => if c' = c then some rest else none
  | [] => none

/-- The optional time group `(?:T..:..:..(?:.(\d{6}))?Z)?` of the load
pattern, including the greedy try of the microsecond group (whose leading
`.` matches any character) before falling back to a bare `Z`. -/
def matchTime (cs : List Char) : Option (Nat × Nat × Nat × Option Nat) := do
  let cs ← expectChar 'T' cs
  let (hh, cs) ← parseDigits 2 0 cs
  let cs ← expectChar ':' cs
  let (mi, cs) ← parseDigits 2 0 cs
  let cs ← expectChar ':' cs
  let (ss, cs) ← parseDigits 2 0 cs
  let msAttempt : Option Nat :=
    match cs with
    | _ :: cs1 =>
        match parseDigits 6 0 cs1 with
        | some (ms, cs2) => if (expectChar 'Z' cs2).isSome then some ms else none
        | none => none
    | [] => none
  match msAttempt with
  | some ms => some (hh, mi, ss, some ms)
  | none => (expectChar 'Z' cs).map fun _ => (hh, mi, ss, none)

/-- `re.match` of the load pattern: an unanchored prefix match of
`\d{4}-\d{2}-\d{2}` followed by the optional time group; trailing
characters are ignored. -/
def dateMatch (s : String) :
    Option (Nat × Nat × Nat × Option (Nat × Nat × Nat × Option Nat)) := do
  let cs := s.toList
  let (y, cs) ← parseDigits 4 0 cs
  let cs ← expectChar '-' cs
  let (mo, cs) ← parseDigits 2 0 cs
  let cs ← expectChar '-' cs
  let (dy, cs) ← parseDigits 2 0 cs
  some (y, mo, dy, matchTime cs)

/-- The per-field conversion of `sgmock_json_load`: a string matching the
date pattern becomes a `date` (no time group) or a `datetime`; a matched
time group without microseconds crashes on `int(None)` (a `TypeError` in
the source).  CPython's range validation of the date constructor is not
modelled; no claim depends on out-of-range components. -/
def restoreField : JVal → Except SGErr SGValue
  | .jstr s =>
      match dateMatch s with
      | none => .ok (.vstr s)
      | some (y, mo, dy, none) => .ok (.vdate ⟨y, mo, dy⟩)
      | some (y, mo, dy, some (hh, mi, ss, some ms)) =>
          .ok (.vdatetime ⟨y, mo, dy, hh, mi, ss, ms⟩)
      | some (_, _, _, some (_, _, _, none)) =>
          .error (.typeError "int() argument must be a string, not NoneType")
  | v => .ok (jToSG v)

/-- `Shotgun.sgmock_json_load`: re-key each type's records by `int(sid)`,
convert date-shaped top-level string fields, recompute each type's id
counter as the max id present, replace the live store and clear the
deleted store. -/
def sgmock_json_load (j : List (String × List (String × List (String × JVal)))) :
    Except SGErr Shotgun := do
  let objects ← j.mapM fun tp => do
    let recs ← tp.2.mapM fun sr => do
      let eid ← match pyInt? sr.1 with
        | some i => Except.ok i
        | none => Except.error (SGErr.valueError "invalid literal for int()")
      let fields ← sr.2.mapM fun kv => do
        let v' ← restoreField kv.2
        Except.ok (kv.1, v')
      Except.ok (eid, fields)
    Except.ok (tp.1, recs)
  let entity_ids := objects.foldl (fun acc tp =>
    match tp.2.map fun r => r.1 with
    | [] => acc
    | i :: is => mset acc tp.1 (is.foldl max i)) []
  .ok { _store := objects, _ids := entity_ids, _deleted := [] }

/-! Statement-side definitions: decidable shapes used in the theorems
below, and concrete fixtures for their witnesses. -/

/-- A value list consisting of exactly one list value: the only shape on
which the flat variadic reading and the structured reading diverge. -/
def isSingleListValue : List SGValue → Bool
  | [SGValue.vlist _] => true
  | _ => false

/-- A scalar (non-container) value. -/
def isScalar : SGValue → Bool
  | .vlist _ => false
  | .vdict _ => false
  | _ => true

/-- A `Shot` record with a `code`. -/
def shotRec (i : Int) (code : String) : Entity :=
  [("type", .vstr "Shot"), ("id", .vint i), ("code", .vstr code)]

/-- Five stored shots, for the pagination witness. -/
def pagSG : Shotgun :=
  { _store := [("Shot", [(1, shotRec 1 "001"), (2, shotRec 2 "002"),
      (3, shotRec 3 "003"), (4, shotRec 4 "004"), (5, shotRec 5 "005")])],
    _ids := [("Shot", 5)], _deleted := [] }

/-- A store with a linked `Shot`, for deep-link lookups. -/
def deepSG : Shotgun :=
  { _store := [("Shot", [(1, [("type", .vstr "Shot"), ("id", .vint 1),
      ("c", .vstr "x"), ("name", .vstr "s1")])])],
    _ids := [("Shot", 1)], _deleted := [] }

/-- A record holding a link `a` to `Shot` 1 of `deepSG`. -/
def deepTask : Entity :=
  [("type", .vstr "Task"), ("id", .vint 7),
    ("a", .vdict [("type", .vstr "Shot"), ("id", .vint 1)])]

/-- A store whose `Shot` 7 sits in the deleted map only. -/
def c10SG : Shotgun :=
  { _store := [("Shot", [])], _ids := [("Shot", 7)],
    _deleted := [("Shot", [(7, shotRec 7 "old")])] }

mutual

/-- A value made only of JSON-native pieces (no date or datetime anywhere):
such values survive `json.dump`/`json.load` untouched. -/
def jsonPure : SGValue → Bool
  | .vdate _ => false
  | .vdatetime _ => false
  | .vlist xs => jsonPureList xs
  | .vdict m => jsonPureDict m
  | _ => true

def jsonPureList : List SGValue → Bool
  | [] => true
  | x :: xs => jsonPure x && jsonPureList xs

def jsonPureDict : List (String × SGValue) → Bool
  | [] => true
  | (_, v) :: rest => jsonPure v && jsonPureDict rest

end

/-- A top-level record field value that `sgmock_json_load` reconstructs
exactly: strings must not carry a date-shaped prefix, dates and datetimes
must have printable components and (for datetimes) a nonzero microsecond
(a zero microsecond makes the load crash on `int(None)`), and containers
must be JSON-pure. -/
def safeTopValue : SGValue → Bool
  | .vstr s => (dateMatch s).isNone
  | .vdate d => decide (d.year < 10000) && decide (d.month < 100) &&
      decide (d.day < 100)
  | .vdatetime d => decide (d.year < 10000) && decide (d.month < 100) &&
      decide (d.day < 100) && decide (d.hour < 100) &&
      decide (d.minute < 100) && decide (d.second < 100) &&
      decide (d.microsecond ≠ 0) && decide (d.microsecond < 1000000)
  | .vlist xs => jsonPureList xs
  | .vdict m => jsonPureDict m
  | _ => true

/-- All field values of the record are safe to round-trip. -/
def safeRecord (r : Entity) : Bool := r.all fun kv => safeTopValue kv.2

/-- All records of the live store are safe to round-trip. -/
def safeStore (sg : Shotgun) : Bool :=
  sg._store.all fun tp => tp.2.all fun ie => safeRecord ie.2

/-- A round-trippable store: datetime with microseconds, date, plain
string, int, null, bool and a pure list. -/
def c8SG : Shotgun :=
  { _store := [("Shot", [(1,
      [("type", .vstr "Shot"), ("id", .vint 1),
        ("created_at", .vdatetime ⟨2020, 1, 2, 3, 4, 5, 6⟩),
        ("due", .vdate ⟨2021, 2, 3⟩), ("code", .vstr "abc"),
        ("cut", .vint 42), ("note", .vnull), ("ok", .vbool true),
        ("tags", .vlist [.vstr "x", .vint 7])])]),
    ("Task", [(2, [("type", .vstr "Task"), ("id", .vint 2)]),
      (9, [("type", .vstr "Task"), ("id", .vint 9)])])],
    _ids := [("Shot", 1), ("Task", 9)], _deleted := [] }

/-- A store holding a plain string field that merely looks like a date. -/
def c8CexSG : Shotgun :=
  { _store := [("Shot", [(1, [("code", .vstr "2020-01-01")])])],
    _ids := [], _deleted := [] }

/-- The registered relations the compiler can instantiate with the given
values without a `TypeError`: the scalar filters take exactly one value,
the set filters hashable values; unknown names carry no constraint. -/
def relArgsOK (rel : String) (values : List SGValue) : Bool :=
  if rel = "is" ∨ rel = "is_not" ∨ rel = "less_than" ∨ rel = "greater_than" ∨
      rel = "starts_with" ∨ rel = "ends_with" then values.length == 1
  else if rel = "in" ∨ rel = "not_in" then values.all isHashable
  else true

/-- A group operator the compiler accepts. -/
def opValid (op : String) : Bool :=
  (op == "any") || (op == "or") || (op == "all") || (op == "and")

/-- The values a flat condition hands the relation: a lone list third
element is the value list, anything else is taken variadically. -/
def flatValues (rest : List SGValue) : List SGValue :=
  match rest with
  | [.vlist vs] => vs
  | r => r

mutual

/-- Some condition in the node names a relation missing from the registry
(looking where the compiler would look). -/
def condHasUnknown : Filt → Bool
  | .fflat _ rel _ => (_filters rel).isNone
  | .fdict fo lo conds filts rel _ _ =>
      if fo.isSome then
        match lo, conds with
        | some _, some cs => listHasUnknown cs
        | _, _ =>
            match filts with
            | some cs => listHasUnknown cs
            | none => false
      else
        match rel with
        | some r => (_filters r).isNone
        | none => false
termination_by c => sizeOf c
decreasing_by
  all_goals simp_wf
  all_goals omega

def listHasUnknown : List Filt → Bool
  | [] => false
  | c :: cs => condHasUnknown c || listHasUnknown cs
termination_by cs => sizeOf cs
decreasing_by
  all_goals simp_wf
  all_goals omega

end

mutual

/-- The node compiles without any error other than (possibly) an unknown
relation: operators are valid, condition mappings carry
`relation`/`path`/`values`, and known relations get acceptable arguments. -/
def condWF : Filt → Bool
  | .fflat _ rel rest => relArgsOK rel (flatValues rest)
  | .fdict fo lo conds filts rel path vals =>
      if fo.isSome then
        match lo, conds with
        | some op, some cs => opValid op && listWF cs
        | _, _ =>
            match filts with
            | some cs => opValid (fo.getD "and") && listWF cs
            | none => false
      else
        match rel, path, vals with
        | some r, some _, some vs => relArgsOK r vs
        | _, _, _ => false
termination_by c => sizeOf c
decreasing_by
  all_goals simp_wf
  all_goals omega

def listWF : List Filt → Bool
  | [] => true
  | c :: cs => condWF c && listWF cs
termination_by cs => sizeOf cs
decreasing_by
  all_goals simp_wf
  all_goals omega

end

/-- `condHasUnknown` for the top-level `filters` argument. -/
def pyFiltersHasUnknown : PyFilters → Bool
  | .pdict _ lo conds filts =>
      match lo, conds with
      | some _, some cs => listHasUnknown cs
      | _, _ =>
          match filts with
          | some cs => listHasUnknown cs
          | none => false
  | .plist cs => listHasUnknown cs

/-- `condWF` for the top-level `filters` argument. -/
def pyFiltersWF : PyFilters → Bool
  | .pdict fo lo conds filts =>
      match lo, conds with
      | some op, some cs => opValid op && listWF cs
      | _, _ =>
          match filts with
          | some cs => opValid (fo.getD "and") && listWF cs
          | none => false
  | .plist cs => listWF cs

/-- A filter list with one known-relation condition and one condition
naming the unregistered relation `bogus`. -/
def c5F : PyFilters :=
  .plist
    [.fflat "code" "is" [.vstr "x"],
     .fdict none none none none (some "bogus") (some "code")
       (some [.vstr "y"])]

/-- The compile-time dichotomy behind C5, at one condition: a condition
naming an unregistered relation somewhere inside compiles to the
unknown-relation `MockError`, and otherwise compiles to a predicate. -/
def condSpec (c : Filt) : Prop :=
  (condHasUnknown c = true → ∃ name, _filters name = none ∧
      _compile_condition c = Except.error (unknownRelationError name)) ∧
    (condHasUnknown c = false → ∃ p, _compile_condition c = Except.ok p)

/-- The C5 dichotomy for a condition list under `compileConds`. -/
def listSpec (cs : List Filt) : Prop :=
  (listHasUnknown cs = true → ∃ name, _filters name = none ∧
      compileConds cs = Except.error (unknownRelationError name)) ∧
    (listHasUnknown cs = false → ∃ ps, compileConds cs = Except.ok ps)

/-- The C5 dichotomy for a group under `compileOp`. -/
def opSpec (op : String) (cs : List Filt) : Prop :=
  (listHasUnknown cs = true → ∃ name, _filters name = none ∧
      compileOp op cs = Except.error (unknownRelationError name)) ∧
    (listHasUnknown cs = false → ∃ p, compileOp op cs = Except.ok p)

/-! ### C4 -/

/-- C4: on every record, the predicate compiled from an AND group with an
empty child list is true and the one from an OR group with an empty child
list is false; and the NOT wrapper, built over any relation constructor
and arguments, yields a predicate that is true on a record exactly when
the wrapped predicate is false there. -/
theorem C4_empty_groups_and_not (entity : Entity) (c : RelCtor) (field : String)
    (values : List SGValue) (p : Pred) (h : c field values = .ok p) :
    And [] entity = true ∧ Or [] entity = false ∧
      ∃ q, NotWrap c field values = .ok q ∧ (q entity = true ↔ p entity = false) := by
  refine ⟨rfl, rfl, fun e => !(p e), ?_, ?_⟩
  · simp [NotWrap, h, Except.map]
  · cases hp : p entity <;> simp [hp]

/-- C4 witness: the NOT wrapper over `is` at a concrete record. -/
theorem C4_empty_groups_and_not_witness :
    And [] [] = true ∧ Or [] [] = false ∧
      ∃ q, NotWrap IsFilter "code" [.vstr "x"] = .ok q ∧
        (q [] = true ↔
          (fun entity : Entity =>
            let pr := match_types (.vstr "x") (egetF entity "code")
            isTest pr.1 pr.2) [] = false) :=
  C4_empty_groups_and_not [] IsFilter "code" [.vstr "x"] _ rfl

/-! ### C9 -/

/-- C9, amended: the legacy flat list form `[field, relation, [values]]`
always compiles identically to the structured
`{relation, path, values}` condition; the variadic flat form
`[field, relation, *values]` does so whenever the value list is not a
single list value (on that one shape the flat form is read as the
three-element list form instead). -/
theorem C9_flat_agrees_with_structured (field rel : String)
    (values : List SGValue) (h : isSingleListValue values = false) :
    _compile_condition (.fflat field rel [.vlist values]) =
        _compile_condition
          (.fdict none none none none (some rel) (some field) (some values)) ∧
      _compile_condition (.fflat field rel values) =
        _compile_condition
          (.fdict none none none none (some rel) (some field) (some values)) := by
  constructor
  · rw [_compile_condition.eq_def, _compile_condition.eq_def]
    rfl
  · rw [_compile_condition.eq_def, _compile_condition.eq_def]
    rcases values with _ | ⟨v, vs⟩
    · rfl
    · rcases vs with _ | ⟨v2, rest⟩
      · cases v <;> first
          | rfl
          | exact absurd h (by simp [isSingleListValue])
      · cases v <;> rfl

/-- C9 witness: `["sg_status", "in", "ip", "rdy"]` (and its list form)
against `{relation: "in", path: "sg_status", values: ["ip", "rdy"]}`. -/
theorem C9_flat_agrees_with_structured_witness :
    _compile_condition
        (.fflat "sg_status" "in" [.vlist [.vstr "ip", .vstr "rdy"]]) =
        _compile_condition (.fdict none none none none (some "in")
          (some "sg_status") (some [.vstr "ip", .vstr "rdy"])) ∧
      _compile_condition (.fflat "sg_status" "in" [.vstr "ip", .vstr "rdy"]) =
        _compile_condition (.fdict none none none none (some "in")
          (some "sg_status") (some [.vstr "ip", .vstr "rdy"])) :=
  C9_flat_agrees_with_structured "sg_status" "in" [.vstr "ip", .vstr "rdy"] rfl

/-- C9 counterexample: for the value list `[["a"]]` the structured form and
the variadic flat form compile to predicates that disagree on the record
`{f: "a"}` (the flat form collapses to the list form), so the two forms do
not agree for every value list. -/
theorem C9_counterexample :
    ((_compile_condition (.fdict none none none none (some "is") (some "f")
          (some [.vlist [.vstr "a"]]))).map fun p => p [("f", .vstr "a")]) =
        .ok false ∧
      ((_compile_condition (.fflat "f" "is" [.vlist [.vstr "a"]])).map
          fun p => p [("f", .vstr "a")]) = .ok true := by
  constructor <;>
    simp [_compile_condition, applyRelation, _filters, IsFilter, Except.map,
      match_types, egetF, mget, isTest, pyEq]

/-! ### C1 -/

/-- C1, amended: a condition mapping is compiled recursively as a group
exactly when it carries the legacy `filter_operator` key, in which case it
is handed to `_compile_filters` unchanged (so a legacy `or`/`and` group
yields the corresponding OR/AND predicate over its children); a structured
group mapping without that key is read as a plain condition instead. -/
theorem C1_group_condition_dispatch (f : String) (lo : Option String)
    (conds filts : Option (List Filt)) (rel path : Option String)
    (vals : Option (List SGValue)) :
    (_compile_condition (.fdict (some f) lo conds filts rel path vals) =
        _compile_filters (.pdict (some f) lo conds filts)) ∧
      (∀ cs, _compile_condition
          (.fdict (some "or") none none (some cs) none none none) =
          (compileConds cs).map Or) ∧
      (∀ cs, _compile_condition
          (.fdict (some "and") none none (some cs) none none none) =
          (compileConds cs).map And) := by
  refine ⟨?_, fun cs => ?_, fun cs => ?_⟩
  · rw [_compile_condition.eq_def]
    simp
  · rw [_compile_condition.eq_def]
    simp [_compile_filters, compileOp]
  · rw [_compile_condition.eq_def]
    simp [_compile_filters, compileOp]

/-- C1 counterexample: a structured nested group
`{logical_operator: "and", conditions: []}` used as a condition is not
compiled as a group: it fails with a `KeyError` on `relation` instead of
yielding the vacuous AND predicate. -/
theorem C1_counterexample :
    _compile_condition (.fdict none (some "and") (some []) none none none none) =
      .error (.keyError "relation") := by
  rw [_compile_condition.eq_def]
  simp

/-! ### C2 -/

/-- C2, amended: for a dotted path matching the one-hop pattern whose local
link's type differs from the named type, the lookup is null; a dotted path
not matching the pattern (with no empty segment) is null; a path with an
empty segment raises a malformed-field error; and a path matching the
pattern looks up the same triple as any other path matching the same
triple, so segments past the third are ignored rather than null. -/
theorem C2_deep_link_lookup (sg : Shotgun) (e : Entity) :
    (∀ field lf lt df linkd tv,
        mget e field = none →
        _deep_lookup_match field = some (lf, lt, df) →
        mget e lf = some (.vdict linkd) →
        mget linkd "type" = some tv →
        pyEq tv (.vstr lt) = false →
        _lookup_field sg e field = .ok .vnull) ∧
      (∀ field,
        mget e field = none →
        _deep_lookup_match field = none →
        (splitDots field).any String.isEmpty = false →
        (splitDots field).length > 1 →
        _lookup_field sg e field = .ok .vnull) ∧
      (∀ field field2 lf lt df linkd,
        mget e field = none → mget e field2 = none →
        _deep_lookup_match field = some (lf, lt, df) →
        _deep_lookup_match field2 = some (lf, lt, df) →
        mget e lf = some (.vdict linkd) →
        _lookup_field sg e field = _lookup_field sg e field2) ∧
      (∀ field,
        e ≠ [] → mget e field = none →
        _deep_lookup_match field = none →
        (splitDots field).any String.isEmpty = true →
        _lookup_field sg e field =
          .error (.shotgunError ("malformed field " ++ field))) := by
  refine ⟨?_, ?_, ?_, ?_⟩
  · intro field lf lt df linkd tv h1 h2 h3 h4 h5
    by_cases he : e.isEmpty
    · simp [_lookup_field, he]
    · simp [_lookup_field, he, h1, h2, h3, h4, h5]
  · intro field h1 h2 h3 h4
    by_cases he : e.isEmpty
    · simp [_lookup_field, he]
    · simp [_lookup_field, he, h1, h2, h3, h4]
  · intro field field2 lf lt df linkd h1 h2 h3 h4 h5
    by_cases he : e.isEmpty
    · simp [_lookup_field, he]
    · simp [_lookup_field, he, h1, h2, h3, h4, h5]
  · intro field hne h1 h2 h3
    have he : e.isEmpty = false := by
      cases e with
      | nil => exact absurd rfl hne
      | cons a l => rfl
    simp [_lookup_field, he, h1, h2, h3]

/-- C2 witness: on `deepSG`/`deepTask`, a type mismatch (`a.Other.c`) and a
non-matching dotted path (`a.b`) give null, `a.Shot.c.d` looks up the same
as `a.Shot.c`, and `a..b` raises the malformed-field error. -/
theorem C2_deep_link_lookup_witness :
    _lookup_field deepSG deepTask "a.Other.c" = .ok .vnull ∧
      _lookup_field deepSG deepTask "a.b" = .ok .vnull ∧
      _lookup_field deepSG deepTask "a.Shot.c.d" =
        _lookup_field deepSG deepTask "a.Shot.c" ∧
      _lookup_field deepSG deepTask "a..b" =
        .error (.shotgunError ("malformed field " ++ "a..b")) := by
  refine ⟨?_, ?_, ?_, ?_⟩
  · exact (C2_deep_link_lookup deepSG deepTask).1 "a.Other.c" "a" "Other" "c"
      [("type", .vstr "Shot"), ("id", .vint 1)] (.vstr "Shot")
      rfl rfl rfl rfl rfl
  · exact (C2_deep_link_lookup deepSG deepTask).2.1 "a.b" rfl rfl rfl
      (by decide)
  · exact (C2_deep_link_lookup deepSG deepTask).2.2.1 "a.Shot.c.d" "a.Shot.c"
      "a" "Shot" "c" [("type", .vstr "Shot"), ("id", .vint 1)]
      rfl rfl rfl rfl rfl
  · exact (C2_deep_link_lookup deepSG deepTask).2.2.2 "a..b"
      (by intro h; cases h) rfl rfl rfl

/-- C2 counterexample: the dotted path `a.Shot.c.d`, which goes beyond the
one-hop pattern, does not yield null: it returns the linked record's `c`
value `"x"`. -/
theorem C2_counterexample :
    _lookup_field deepSG deepTask "a.Shot.c.d" = .ok (.vstr "x") ∧
      SGValue.vstr "x" ≠ SGValue.vnull := by
  constructor
  · rfl
  · intro h
    exact SGValue.noConfusion h

/-! ### Association-list lemmas -/

theorem mget_mset_self {κ α : Type} [DecidableEq κ] (m : List (κ × α)) (k : κ)
    (v : α) : mget (mset m k v) k = some v := by
  induction m with
  | nil => simp [mget, mset]
  | cons kv rest ih =>
      obtain ⟨k', v'⟩ := kv
      by_cases h : k' = k
      · subst h
        simp [mget, mset]
      · simp [mget, mset, h, ih]

theorem mget_mset_ne {κ α : Type} [DecidableEq κ] (m : List (κ × α))
    (k k' : κ) (v : α) (h : k' ≠ k) : mget (mset m k v) k' = mget m k' := by
  induction m with
  | nil =>
      simp only [mset, mget]
      rw [if_neg fun hh => h hh.symm]
  | cons kv rest ih =>
      obtain ⟨k0, v0⟩ := kv
      by_cases h0 : k0 = k
      · subst h0
        simp only [mset, if_pos rfl, mget]
        rw [if_neg fun hh => h hh.symm, if_neg fun hh => h hh.symm]
      · simp only [mset, if_neg h0, mget]
        by_cases h1 : k0 = k'
        · rw [if_pos h1, if_pos h1]
        · rw [if_neg h1, if_neg h1, ih]

theorem mget_merase_self {κ α : Type} [DecidableEq κ] (m : List (κ × α))
    (k : κ) : mget (merase m k) k = none := by
  induction m with
  | nil => simp [merase, mget]
  | cons kv rest ih =>
      obtain ⟨k0, v0⟩ := kv
      by_cases h0 : k0 = k
      · simpa [merase, h0] using ih
      · simpa [merase, mget, h0] using ih

theorem mem_merase {κ α : Type} [DecidableEq κ] {m : List (κ × α)} {k : κ}
    {kv : κ × α} (h : kv ∈ merase m k) : kv ∈ m ∧ kv.1 ≠ k := by
  unfold merase at h
  have h1 := List.mem_filter.mp h
  refine ⟨h1.1, by simpa using h1.2⟩

theorem mset_absent_append {κ α : Type} [DecidableEq κ] (m : List (κ × α))
    (k : κ) (v : α) (h : mget m k = none) : mset m k v = m ++ [(k, v)] := by
  induction m with
  | nil => simp [mset]
  | cons kv rest ih =>
      obtain ⟨k0, v0⟩ := kv
      by_cases h0 : k0 = k
      · simp [mget, h0] at h
      · simp only [mget, if_neg h0] at h
        simp [mset, h0, ih h]

theorem mget_some_mem {κ α : Type} [DecidableEq κ] {m : List (κ × α)} {k : κ}
    {v : α} (h : mget m k = some v) : (k, v) ∈ m := by
  induction m with
  | nil => simp [mget] at h
  | cons kv rest ih =>
      obtain ⟨k0, v0⟩ := kv
      by_cases h0 : k0 = k
      · subst h0
        simp [mget] at h
        simp [h]
      · simp only [mget, if_neg h0] at h
        exact List.mem_cons_of_mem _ (ih h)

theorem mget_some_ne_nil {κ α : Type} [DecidableEq κ] {m : List (κ × α)}
    {k : κ} {v : α} (h : mget m k = some v) : m ≠ [] := by
  intro he
  subst he
  simp [mget] at h

theorem mget_some_isEmpty_false {α : Type} [DecidableEq α] {m : List (α × SGValue)}
    {k : α} {v : SGValue} (h : mget m k = some v) : m.isEmpty = false := by
  cases m with
  | nil => simp [mget] at h
  | cons kv rest => rfl

theorem storeGet_mset_self (st : List (String × TypeStore)) (t : String)
    (x : TypeStore) : storeGet (mset st t x) t = x := by
  simp [storeGet, mget_mset_self]

theorem mget_foldl_mset_of_absent {l : List (String × SGValue)} (acc : Entity)
    (k : String) (h : ∀ kv ∈ l, kv.1 ≠ k) :
    mget (l.foldl (fun a kv => mset a kv.1 kv.2) acc) k = mget acc k := by
  induction l generalizing acc with
  | nil => rfl
  | cons kv rest ih =>
      have hk : kv.1 ≠ k := h kv (List.mem_cons_self kv rest)
      have hrest : ∀ kv' ∈ rest, kv'.1 ≠ k :=
        fun kv' hm => h kv' (List.mem_cons_of_mem _ hm)
      calc mget ((kv :: rest).foldl (fun a kv => mset a kv.1 kv.2) acc) k
          = mget (rest.foldl (fun a kv => mset a kv.1 kv.2) (mset acc kv.1 kv.2)) k := rfl
        _ = mget (mset acc kv.1 kv.2) k := ih (mset acc kv.1 kv.2) hrest
        _ = mget acc k := mget_mset_ne acc kv.1 k kv.2 fun hh => hk hh.symm

theorem mget_foldl_mset_of_mem {l : List (String × SGValue)} (acc : Entity)
    {kv : String × SGValue} (hkv : kv ∈ l) (hnd : (l.map Prod.fst).Nodup) :
    mget (l.foldl (fun a kv => mset a kv.1 kv.2) acc) kv.1 = some kv.2 := by
  induction l generalizing acc with
  | nil => simp at hkv
  | cons kv0 rest ih =>
      have hnd' : (rest.map Prod.fst).Nodup := (List.nodup_cons.mp hnd).2
      rcases List.mem_cons.mp hkv with hh | hh
      · subst hh
        have habs : ∀ kv' ∈ rest, kv'.1 ≠ kv.1 := by
          intro kv' hm heq
          exact (List.nodup_cons.mp hnd).1 (heq ▸ List.mem_map_of_mem Prod.fst hm)
        calc mget ((kv :: rest).foldl (fun a kv => mset a kv.1 kv.2) acc) kv.1
            = mget (rest.foldl (fun a kv => mset a kv.1 kv.2) (mset acc kv.1 kv.2)) kv.1 := rfl
          _ = mget (mset acc kv.1 kv.2) kv.1 := mget_foldl_mset_of_absent _ _ habs
          _ = some kv.2 := mget_mset_self acc kv.1 kv.2
      · exact ih (mset acc kv0.1 kv0.2) hh hnd'

theorem mget_append {κ α : Type} [DecidableEq κ] (l1 l2 : List (κ × α))
    (k : κ) : mget (l1 ++ l2) k =
      (match mget l1 k with | some v => some v | none => mget l2 k) := by
  induction l1 with
  | nil => rfl
  | cons kv rest ih =>
      obtain ⟨k0, v0⟩ := kv
      by_cases h0 : k0 = k
      · simp [mget, h0]
      · simpa [mget, h0] using ih

theorem mset_ne_nil {κ α : Type} [DecidableEq κ] (m : List (κ × α)) (k : κ)
    (v : α) : mset m k v ≠ [] := by
  cases m with
  | nil => simp [mset]
  | cons kv rest =>
      obtain ⟨k0, v0⟩ := kv
      by_cases h0 : k0 = k <;> simp [mset, h0]

/-- Scalars pass through `_reduce_links` unchanged. -/
theorem reduce_links_scalar (sg : Shotgun) (v : SGValue)
    (hv : isScalar v = true) : _reduce_links sg v = .ok v := by
  cases v with
  | vlist xs => simp [isScalar] at hv
  | vdict m => simp [isScalar] at hv
  | vnull => simp [_reduce_links]
  | vbool b => simp [_reduce_links]
  | vint n => simp [_reduce_links]
  | vstr s => simp [_reduce_links]
  | vdate d => simp [_reduce_links]
  | vdatetime d => simp [_reduce_links]

/-- `reduceDict` over all-scalar values is the identity. -/
theorem reduceDict_scalar (sg : Shotgun) (l : List (String × SGValue))
    (h : ∀ kv ∈ l, isScalar kv.2 = true) : reduceDict sg l = .ok l := by
  induction l with
  | nil => rw [reduceDict]
  | cons kv rest ih =>
      obtain ⟨k, v⟩ := kv
      rw [reduceDict,
        reduce_links_scalar sg v (h (k, v) (List.mem_cons_self _ _)),
        ih fun kv' h' => h kv' (List.mem_cons_of_mem _ h')]
      rfl

/-- The `_minimal_copy` field loop succeeds when every requested field is a
direct hit on a scalar value. -/
theorem minimalFields_scalar_ok (sg : Shotgun) (fuel : Nat) (e : Entity)
    (hee : e.isEmpty = false) :
    ∀ (flds : List String) (acc : Entity),
      (∀ f ∈ flds, ∃ v, mget e f = some v ∧ isScalar v = true) →
      ∃ r, minimalFields sg fuel e flds acc = .ok r := by
  intro flds
  induction flds with
  | nil =>
      intro acc _
      exact ⟨acc, by rw [minimalFields]⟩
  | cons f rest ih =>
      intro acc h
      obtain ⟨v, hv, hs⟩ := h f (List.mem_cons_self _ _)
      have hrest : ∀ f' ∈ rest, ∃ v, mget e f' = some v ∧ isScalar v = true :=
        fun f' h' => h f' (List.mem_cons_of_mem _ h')
      have hlook : _lookup_field sg e f = .ok v := by
        rw [_lookup_field]
        simp [hee, hv]
      rw [minimalFields, hlook]
      cases v with
      | vdict m => simp [isScalar] at hs
      | vlist xs => simp [isScalar] at hs
      | vnull => exact ih _ hrest
      | vbool b => exact ih _ hrest
      | vint n => exact ih _ hrest
      | vstr s => exact ih _ hrest
      | vdate d => exact ih _ hrest
      | vdatetime d => exact ih _ hrest

/-- `reduceList` is the element-wise map of `_reduce_links`. -/
theorem reduceList_eq_mapM (sg : Shotgun) (xs : List SGValue) :
    reduceList sg xs = xs.mapM (_reduce_links sg) := by
  induction xs with
  | nil =>
      rw [reduceList]
      rfl
  | cons x rest ih =>
      rw [reduceList, List.mapM_cons, ih]
      rfl

/-- `reduceDict` reduces the entries' values in place. -/
theorem reduceDict_eq_mapM (sg : Shotgun) (l : List (String × SGValue)) :
    reduceDict sg l =
      l.mapM fun kv => (_reduce_links sg kv.2).map fun v' => (kv.1, v') := by
  induction l with
  | nil =>
      rw [reduceDict]
      rfl
  | cons kv rest ih =>
      rw [reduceDict, List.mapM_cons, ih]
      cases _reduce_links sg kv.2 <;> rfl

/-! ### C6 -/

/-- C6: a mapping carrying both `type` and `id` is checked against the live
store: when the referenced entity does not exist the stored value degrades
to `None` (no error), and when it does the value becomes the minimal
`{type, id}` copy; a mapping without both keys reduces its entry values in
place; sequences are reduced element-wise; scalar values pass through
unchanged. -/
theorem C6_reduce_links (sg : Shotgun) :
    (∀ d, (mget d "type").isSome → (mget d "id").isSome →
        _entity_exists sg d = .ok false →
        _reduce_links sg (.vdict d) = .ok .vnull) ∧
      (∀ d, (mget d "type").isSome → (mget d "id").isSome →
        _entity_exists sg d = .ok true →
        _reduce_links sg (.vdict d) = .ok (.vdict (minimize d))) ∧
      (∀ d, ((mget d "type").isSome && (mget d "id").isSome) = false →
        _reduce_links sg (.vdict d) =
          (d.mapM fun kv => (_reduce_links sg kv.2).map fun v' => (kv.1, v')).map
            .vdict) ∧
      (∀ xs, _reduce_links sg (.vlist xs) =
        (xs.mapM (_reduce_links sg)).map .vlist) ∧
      (∀ v, isScalar v = true → _reduce_links sg v = .ok v) := by
  refine ⟨?_, ?_, ?_, ?_, ?_⟩
  · intro d h1 h2 h3
    rw [_reduce_links]
    simp [h1, h2, h3]
  · intro d h1 h2 h3
    obtain ⟨tv, htv⟩ := Option.isSome_iff_exists.mp h1
    have hne : d.isEmpty = false := mget_some_isEmpty_false htv
    rw [_reduce_links]
    simp only [h1, h2, Bool.and_self, if_pos]
    rw [h3]
    rw [_minimal_copy]
    simp [hne, Option.getD, minimalFields, optEntityVal]
    rfl
  · intro d h
    rw [_reduce_links]
    simp [h, reduceDict_eq_mapM]
  · intro xs
    rw [_reduce_links]
    rw [reduceList_eq_mapM]
  · exact fun v hv => reduce_links_scalar sg v hv

/-- C6 witness: on `deepSG`, a dangling link degrades to null, a live link
minimizes, a list reduces element-wise, and a scalar passes through. -/
theorem C6_reduce_links_witness :
    _reduce_links deepSG (.vdict [("type", .vstr "Shot"), ("id", .vint 99)]) =
        .ok .vnull ∧
      _reduce_links deepSG (.vdict [("type", .vstr "Shot"), ("id", .vint 1)]) =
        .ok (.vdict [("type", .vstr "Shot"), ("id", .vint 1)]) ∧
      _reduce_links deepSG (.vlist [.vint 3]) =
        (([SGValue.vint 3].mapM (_reduce_links deepSG)).map .vlist) ∧
      _reduce_links deepSG (.vstr "ok") = .ok (.vstr "ok") := by
  refine ⟨?_, ?_, ?_, ?_⟩
  · exact (C6_reduce_links deepSG).1 [("type", .vstr "Shot"), ("id", .vint 99)]
      rfl rfl rfl
  · exact (C6_reduce_links deepSG).2.1 [("type", .vstr "Shot"), ("id", .vint 1)]
      rfl rfl rfl
  · exact (C6_reduce_links deepSG).2.2.2.1 [.vint 3]
  · exact (C6_reduce_links deepSG).2.2.2.2 (.vstr "ok") rfl

/-! ### C7 -/

/-- C7: deleting a stored record returns true and moves it from the live to
the deleted map; a second delete returns false and changes nothing; a
subsequent revive returns true, restores the record to the live map, and a
`find` on the live store by its id locates it again.  The hypotheses state
the store invariants the mock maintains: records are nonempty and carry
their own id. -/
theorem C7_delete_twice_then_revive (sg : Shotgun) (t : String) (i : Int)
    (e : Entity)
    (hlive : mget (storeGet sg._store t) i = some e)
    (hne : e ≠ [])
    (hids : ∀ jr ∈ storeGet sg._store t, mget jr.2 "id" = some (.vint jr.1)) :
    (delete sg t i).1 = true ∧
      mget (storeGet (delete sg t i).2._store t) i = none ∧
      mget (storeGet (delete sg t i).2._deleted t) i = some e ∧
      delete (delete sg t i).2 t i = (false, (delete sg t i).2) ∧
      (revive (delete sg t i).2 t i).1 = true ∧
      mget (storeGet (revive (delete sg t i).2 t i).2._store t) i = some e ∧
      find (revive (delete sg t i).2 t i).2 t
          (.plist [.fflat "id" "is" [.vint i]]) none 500 false 1 =
        .ok [some (minimize e)] := by
  have he : e.isEmpty = false := by
    cases e with
    | nil => exact absurd rfl hne
    | cons a l => rfl
  have hd : delete sg t i =
      (true, ⟨mset sg._store t (merase (storeGet sg._store t) i), sg._ids,
        mset sg._deleted t (mset (storeGet sg._deleted t) i e)⟩) := by
    simp [delete, hlive, he, generateEventsNoop]
  have hr : revive (delete sg t i).2 t i =
      (true, ⟨mset (delete sg t i).2._store t
          (mset (storeGet (delete sg t i).2._store t) i e),
        (delete sg t i).2._ids,
        mset (delete sg t i).2._deleted t
          (merase (storeGet (delete sg t i).2._deleted t) i)⟩) := by
    rw [hd]
    simp [revive, storeGet_mset_self, mget_mset_self, he, generateEventsNoop]
  have hsg2store :
      storeGet (revive (delete sg t i).2 t i).2._store t =
        merase (storeGet sg._store t) i ++ [(i, e)] := by
    rw [hr, hd]
    simp only [storeGet_mset_self]
    exact mset_absent_append _ i e (mget_merase_self _ i)
  refine ⟨by rw [hd], ?_, ?_, ?_, ?_, ?_, ?_⟩
  · rw [hd]
    simp only [storeGet_mset_self]
    exact mget_merase_self _ i
  · rw [hd]
    simp only [storeGet_mset_self]
    exact mget_mset_self _ i e
  · rw [hd]
    simp [delete, storeGet_mset_self, mget_merase_self]
  · rw [hr]
  · rw [hsg2store, mget_append, mget_merase_self]
    simp [mget]
  · have h1 : _compile_condition (.fflat "id" "is" [.vint i]) =
        .ok fun r => pyEq (.vint i) (egetF r "id") := by
      rw [_compile_condition.eq_def]
      rfl
    have hc : _compile_filters (.plist [.fflat "id" "is" [.vint i]]) =
        .ok (And [fun r => pyEq (.vint i) (egetF r "id")]) := by
      rw [_compile_filters, compileOp]
      simp only [String.reduceEq, or_self, if_false, reduceIte]
      rw [compileConds, h1, compileConds]
      rfl
    have hAnd : ∀ r : Entity,
        And [fun r => pyEq (.vint i) (egetF r "id")] r =
          pyEq (.vint i) (egetF r "id") := by
      intro r
      simp [And]
    have hfilter :
        ((merase (storeGet sg._store t) i ++ [(i, e)]).map fun kv => kv.2).filter
            (And [fun r => pyEq (.vint i) (egetF r "id")]) = [e] := by
      rw [List.map_append, List.filter_append]
      have h2 : ((merase (storeGet sg._store t) i).map fun kv => kv.2).filter
          (And [fun r => pyEq (.vint i) (egetF r "id")]) = [] := by
        rw [List.filter_eq_nil_iff]
        intro r hr
        obtain ⟨jr, hjr, hjr2⟩ := List.mem_map.mp hr
        have hmem := mem_merase hjr
        have hid := hids jr hmem.1
        subst hjr2
        have hv : egetF jr.2 "id" = .vint jr.1 := by rw [egetF, hid]; rfl
        rw [hAnd, hv]
        have hq : pyEq (.vint i) (.vint jr.1) = (i == jr.1) := rfl
        rw [hq]
        simp
        exact fun hh => hmem.2 hh.symm
      have hid := hids (i, e) (mget_some_mem hlive)
      have hv : egetF e "id" = .vint i := by rw [egetF, hid]; rfl
      have hpe : And [fun r => pyEq (.vint i) (egetF r "id")] e = true := by
        rw [hAnd, hv]
        have hq : pyEq (.vint i) (.vint i) = (i == i) := rfl
        rw [hq]
        simp
      have h3 : ([(i, e)].map fun kv => kv.2).filter
          (And [fun r => pyEq (.vint i) (egetF r "id")]) = [e] := by
        simp [List.filter, hpe]
      rw [h2, h3]
      rfl
    have hmc : _minimal_copy (revive (delete sg t i).2 t i).2 recursionFuel
        (some e) none = .ok (some (minimize e)) := by
      rw [_minimal_copy]
      simp [he, Option.getD, minimalFields]
      rfl
    simp only [find, hc, bind, Except.bind, Bool.false_eq_true, if_false,
      hsg2store]
    rw [hfilter]
    norm_num
    have htake : List.take (Int.toNat 500) [e] = [e] := rfl
    rw [htake]
    simp [List.mapM.loop, hmc, pure, Except.pure]
    rfl

/-- C7 witness: delete, delete again and revive `Shot` 3 of the five-shot
store, then find it by id. -/
theorem C7_delete_twice_then_revive_witness :
    (delete pagSG "Shot" 3).1 = true ∧
      mget (storeGet (delete pagSG "Shot" 3).2._store "Shot") 3 = none ∧
      mget (storeGet (delete pagSG "Shot" 3).2._deleted "Shot") 3 =
        some (shotRec 3 "003") ∧
      delete (delete pagSG "Shot" 3).2 "Shot" 3 =
        (false, (delete pagSG "Shot" 3).2) ∧
      (revive (delete pagSG "Shot" 3).2 "Shot" 3).1 = true ∧
      mget (storeGet (revive (delete pagSG "Shot" 3).2 "Shot" 3).2._store "Shot")
        3 = some (shotRec 3 "003") ∧
      find (revive (delete pagSG "Shot" 3).2 "Shot" 3).2 "Shot"
          (.plist [.fflat "id" "is" [.vint 3]]) none 500 false 1 =
        .ok [some (minimize (shotRec 3 "003"))] :=
  C7_delete_twice_then_revive pagSG "Shot" 3 (shotRec 3 "003") rfl
    (by simp [shotRec])
    (by intro jr hjr
        have hj : jr ∈ [((1 : Int), shotRec 1 "001"), (2, shotRec 2 "002"),
            (3, shotRec 3 "003"), (4, shotRec 4 "004"), (5, shotRec 5 "005")] := hjr
        fin_cases hj <;> rfl)

/-! ### C10 -/

/-- C10: the duplicate-id check of `create` consults only the live store:
with an id present in the deleted map but absent from the live map, a
`create` supplying that id succeeds, after which the id is present in the
live and the deleted map of that type simultaneously.  `data` carries
scalar field values with distinct keys, as a Python dict of plain fields
does. -/
theorem C10_create_checks_only_live (sg : Shotgun) (now : PyDateTime)
    (t : String) (i : Int) (data : Entity) (edel : Entity)
    (hdata : mget data "id" = some (.vint i))
    (hlive : mget (storeGet sg._store t) i = none)
    (hdel : mget (storeGet sg._deleted t) i = some edel)
    (hscalar : ∀ kv ∈ data, isScalar kv.2 = true)
    (hnodup : (data.map Prod.fst).Nodup) :
    ∃ ret sg', create sg now t data none = .ok (ret, sg') ∧
      (mget (storeGet sg'._store t) i).isSome = true ∧
      mget (storeGet sg'._deleted t) i = some edel := by
  have hscalar' : ∀ kv ∈ merase data "id", isScalar kv.2 = true :=
    fun kv h => hscalar kv (mem_merase h).1
  have hkeys' : ∀ kv ∈ merase data "id", kv.1 ≠ "id" :=
    fun kv h => (mem_merase h).2
  -- the fresh entity and the state after `_create_or_update`
  set entity0 : Entity :=
    [("type", .vstr t), ("id", .vint i), ("created_at", .vdatetime now)]
    with hentity0
  set sg1 : Shotgun :=
    ⟨mset sg._store t (mset (storeGet sg._store t) i entity0),
      mset sg._ids t (max i ((mget sg._ids t).getD 0)), sg._deleted⟩ with hsg1
  set entityF : Entity :=
    (merase data "id").foldl (fun a kv => mset a kv.1 kv.2)
      (mset entity0 "updated_at" (.vdatetime now)) with hentityF
  have hidF : mget entityF "id" = some (.vint i) := by
    rw [hentityF, mget_foldl_mset_of_absent _ _ hkeys']
    rw [mget_mset_ne _ _ _ _ (by decide)]
    rfl
  set sg2 : Shotgun :=
    ⟨mset sg1._store t (mset (storeGet sg1._store t) i entityF), sg1._ids,
      sg1._deleted⟩ with hsg2
  have hcu : _create_or_update sg now t none data = .ok (entityF, sg2) := by
    rw [_create_or_update]
    rw [hdata]
    simp only [hlive, Option.isSome_none, Bool.false_eq_true, if_false, bind,
      Except.bind]
    rw [reduceDict_scalar _ _ hscalar']
    simp only [bind, Except.bind]
    simp only [← hentity0, ← hsg1, ← hentityF]
    rw [hidF]
  have hneF : entityF.isEmpty = false := mget_some_isEmpty_false hidF
  have hfields : ∀ f ∈ data.map Prod.fst ++ ([] : List String),
      ∃ v, mget entityF f = some v ∧ isScalar v = true := by
    intro f hf
    rw [List.append_nil] at hf
    obtain ⟨kv, hkv, hkvf⟩ := List.mem_map.mp hf
    by_cases hid : kv.1 = "id"
    · exact ⟨.vint i, by rw [← hkvf, hid]; exact hidF, rfl⟩
    · have hmem' : kv ∈ merase data "id" :=
        List.mem_filter.mpr ⟨hkv, by simpa using hid⟩
      have hnd' : ((merase data "id").map Prod.fst).Nodup := by
        refine List.Nodup.sublist ?_ hnodup
        exact List.Sublist.map Prod.fst (List.filter_sublist data)
      refine ⟨kv.2, ?_, hscalar kv hkv⟩
      rw [← hkvf, hentityF]
      exact mget_foldl_mset_of_mem _ hmem' hnd'
  obtain ⟨r, hr⟩ := minimalFields_scalar_ok sg2 recursionFuel entityF hneF
    (data.map Prod.fst ++ []) (minimize entityF) hfields
  have hmc : _minimal_copy sg2 recursionFuel (some entityF)
      (some (data.map Prod.fst ++ [])) = .ok (some r) := by
    rw [_minimal_copy]
    simp only [hneF, Bool.false_eq_true, if_false, Option.getD_some, hr]
    rfl
  refine ⟨some r, sg2, ?_, ?_, ?_⟩
  · rw [create, hcu]
    simp only [bind, Except.bind, generateEventsNoop, Option.getD_none, hmc]
  · rw [hsg2]
    simp only [storeGet_mset_self]
    rw [mget_mset_self]
    rfl
  · rw [hsg2, hsg1]
    exact hdel

/-- C10 witness: creating `Shot` with explicit id 7 while id 7 is deleted
(but not live) succeeds, leaving id 7 in both maps. -/
theorem C10_create_checks_only_live_witness :
    ∃ ret sg', create c10SG ⟨2020, 1, 2, 3, 4, 5, 6⟩ "Shot"
        [("id", .vint 7), ("code", .vstr "x")] none = .ok (ret, sg') ∧
      (mget (storeGet sg'._store "Shot") 7).isSome = true ∧
      mget (storeGet sg'._deleted "Shot") 7 = some (shotRec 7 "old") :=
  C10_create_checks_only_live c10SG ⟨2020, 1, 2, 3, 4, 5, 6⟩ "Shot" 7
    [("id", .vint 7), ("code", .vstr "x")] (shotRec 7 "old") rfl rfl rfl
    (by intro kv h
        have hk : kv ∈ [("id", SGValue.vint 7), ("code", SGValue.vstr "x")] := h
        fin_cases hk <;> rfl)
    (by decide)

/-! ### C3 -/

/-- C3: `find` scans the selected store's records of the type in insertion
order, keeps exactly those satisfying the compiled predicate, and returns
the minimal copies of the slice at zero-based offset `(P-1)*L'` of length
at most `L'`, where `L'` is the limit clamped to `[1, 500]`. -/
theorem C3_find_filters_and_paginates (sg : Shotgun) (t : String)
    (F : PyFilters) (fields : Option (List String)) (L P : Int) (ro : Bool)
    (pred : Pred) (hc : _compile_filters F = .ok pred) (hp : 1 ≤ P) :
    find sg t F fields L ro P =
      (((((storeGet (if ro then sg._deleted else sg._store) t).map
              fun kv => kv.2).filter pred).drop
            ((P - 1) * max 1 (min 500 L)).toNat).take
          (max 1 (min 500 L)).toNat).mapM
        fun e => _minimal_copy sg recursionFuel (some e) fields := by
  rw [find, hc]
  simp only [bind, Except.bind]
  have hmax : max 0 (P - 1) = P - 1 := max_eq_right (by omega)
  rw [hmax]

/-- C3 witness: on 5 records, `limit=2, page=2` returns the records at
offsets 2 and 3 in insertion order. -/
theorem C3_find_filters_and_paginates_witness :
    find pagSG "Shot" (.plist []) none 2 false 2 =
      .ok [some [("type", .vstr "Shot"), ("id", .vint 3)],
        some [("type", .vstr "Shot"), ("id", .vint 4)]] := by
  have hc : _compile_filters (.plist []) = .ok (And []) := by
    rw [_compile_filters, compileOp]
    simp only [String.reduceEq, or_self, Bool.false_eq_true, if_false, reduceIte]
    rw [compileConds]
    rfl
  refine (C3_find_filters_and_paginates pagSG "Shot" (.plist []) none 2 2 false
    (And []) hc (by norm_num)).trans ?_
  have hf : ∀ (l : List Entity), l.filter (And []) = l :=
    fun l => List.filter_eq_self.mpr fun a _ => rfl
  rw [hf]
  have hstore : ((storeGet (if false then pagSG._deleted else pagSG._store)
      "Shot").map fun kv => kv.2) =
      [shotRec 1 "001", shotRec 2 "002", shotRec 3 "003", shotRec 4 "004",
        shotRec 5 "005"] := rfl
  rw [hstore]
  have hdrop : List.drop ((((2 : Int) - 1) * max 1 (min 500 2)).toNat)
      [shotRec 1 "001", shotRec 2 "002", shotRec 3 "003", shotRec 4 "004",
        shotRec 5 "005"] = [shotRec 3 "003", shotRec 4 "004", shotRec 5 "005"] := rfl
  have htake : List.take ((max 1 (min 500 (2 : Int))).toNat)
      [shotRec 3 "003", shotRec 4 "004", shotRec 5 "005"] =
      [shotRec 3 "003", shotRec 4 "004"] := rfl
  rw [hdrop, htake]
  have hmc : ∀ (i : Int) (c : String),
      _minimal_copy pagSG recursionFuel (some (shotRec i c)) none =
        .ok (some [("type", .vstr "Shot"), ("id", .vint i)]) := by
    intro i c
    rw [_minimal_copy]
    simp only [shotRec, List.isEmpty_cons, Bool.false_eq_true, if_false,
      Option.getD_none, minimalFields]
    rfl
  rw [List.mapM_cons, hmc, List.mapM_cons, hmc, List.mapM_nil]
  rfl

/-! ### C8: digit and parsing lemmas -/

theorem pyDigitChar_spec :
    ∀ d, d < 10 → (pyDigitChar d).isDigit = true ∧ (pyDigitChar d).toNat = 48 + d := by
  decide

theorem valDigits_append (acc : Nat) (xs ys : List Char) :
    valDigits acc (xs ++ ys) = valDigits (valDigits acc xs) ys := by
  simp [valDigits, List.foldl_append]

theorem valDigits_zeros (j : Nat) : ∀ acc, valDigits acc (List.replicate j '0') = acc * 10 ^ j := by
  induction j with
  | zero => intro acc; simp [valDigits]
  | succ j ih =>
      intro acc
      have h1 : List.replicate (j + 1) '0' = '0' :: List.replicate j '0' := rfl
      rw [h1]
      have h2 : valDigits acc ('0' :: List.replicate j '0') =
          valDigits (acc * 10) (List.replicate j '0') := by
        simp [valDigits]
      rw [h2, ih]
      ring

theorem natDigitsAux_spec : ∀ fuel n, n ≤ fuel →
    ((natDigitsAux fuel n).all Char.isDigit = true ∧
      (∀ acc, valDigits acc (natDigitsAux fuel n).reverse =
        acc * 10 ^ (natDigitsAux fuel n).length + n) ∧
      ∀ k, n < 10 ^ k → (natDigitsAux fuel n).length ≤ k) := by
  intro fuel
  induction fuel with
  | zero =>
      intro n hn
      have h0 : n = 0 := Nat.le_zero.mp hn
      subst h0
      refine ⟨rfl, fun acc => by simp [natDigitsAux, valDigits], fun k _ => by
        simp [natDigitsAux]⟩
  | succ fuel ih =>
      intro n hn
      by_cases h0 : n = 0
      · subst h0
        refine ⟨rfl, fun acc => by simp [natDigitsAux, valDigits], fun k _ => by
          simp [natDigitsAux]⟩
      · have hdiv : n / 10 < n := Nat.div_lt_self (Nat.pos_of_ne_zero h0) (by norm_num)
        have hrec : n / 10 ≤ fuel := by omega
        obtain ⟨iha, ihv, ihl⟩ := ih (n / 10) hrec
        have hmod : n % 10 < 10 := Nat.mod_lt _ (by norm_num)
        obtain ⟨hdig, htn⟩ := pyDigitChar_spec (n % 10) hmod
        have hunf : natDigitsAux (fuel + 1) n =
            pyDigitChar (n % 10) :: natDigitsAux fuel (n / 10) := by
          rw [natDigitsAux, if_neg h0]
        refine ⟨?_, ?_, ?_⟩
        · rw [hunf]
          simp [hdig, iha]
        · intro acc
          rw [hunf]
          have hrev : (pyDigitChar (n % 10) :: natDigitsAux fuel (n / 10)).reverse =
              (natDigitsAux fuel (n / 10)).reverse ++ [pyDigitChar (n % 10)] := by
            simp
          rw [hrev, valDigits_append, ihv acc]
          have hsingle : ∀ a, valDigits a [pyDigitChar (n % 10)] = a * 10 + n % 10 := by
            intro a
            simp [valDigits, htn]
          rw [hsingle]
          have hlen : (pyDigitChar (n % 10) :: natDigitsAux fuel (n / 10)).length =
              (natDigitsAux fuel (n / 10)).length + 1 := rfl
          rw [hlen]
          have := Nat.div_add_mod n 10
          ring_nf
          omega
        · intro k hk
          rw [hunf]
          cases k with
          | zero =>
              exact absurd (by omega : n = 0) h0
          | succ k' =>
              have hk' : n / 10 < 10 ^ k' := by
                rw [Nat.div_lt_iff_lt_mul (by norm_num : (0:Nat) < 10)]
                calc n < 10 ^ (k' + 1) := hk
                  _ = 10 ^ k' * 10 := by ring
              have := ihl k' hk'
              simpa using Nat.succ_le_succ this

theorem parseDigits_exact : ∀ (cs rest : List Char) (acc : Nat),
    cs.all Char.isDigit = true →
    parseDigits cs.length acc (cs ++ rest) = some (valDigits acc cs, rest) := by
  intro cs
  induction cs with
  | nil => intro rest acc _; simp [parseDigits, valDigits]
  | cons c cs' ih =>
      intro rest acc hall
      simp only [List.all_cons, Bool.and_eq_true] at hall
      have h1 : (c :: cs').length = cs'.length + 1 := rfl
      rw [h1, List.cons_append, parseDigits, if_pos hall.1, ih rest _ hall.2]
      rfl

theorem padZeros_spec (k n : Nat) (h1 : 1 ≤ k) (h2 : n < 10 ^ k) :
    (padZeros k n).data.length = k ∧
      (padZeros k n).data.all Char.isDigit = true ∧
      valDigits 0 (padZeros k n).data = n := by
  by_cases h0 : n = 0
  · subst h0
    have hdata : (padZeros k 0).data = List.replicate (k - 1) '0' ++ ['0'] := by
      rfl
    rw [hdata]
    refine ⟨by simp; omega, by simp [List.all_replicate], ?_⟩
    rw [valDigits_append, valDigits_zeros]
    simp [valDigits]
  · obtain ⟨hall, hval, hlen⟩ := natDigitsAux_spec n n (le_refl n)
    have hL : (natDigitsAux n n).length ≤ k := hlen k h2
    have hdata : (padZeros k n).data =
        List.replicate (k - (natDigitsAux n n).reverse.length) '0' ++
          (natDigitsAux n n).reverse := by
      simp only [padZeros, natToString, if_neg h0]
      rfl
    have hrevlen : (natDigitsAux n n).reverse.length = (natDigitsAux n n).length :=
      List.length_reverse _
    rw [hdata, hrevlen]
    refine ⟨?_, ?_, ?_⟩
    · simp [hrevlen]
      omega
    · simp [List.all_append, List.all_replicate, List.all_reverse]
      exact fun c hc => by
        have := List.all_eq_true.mp hall c hc
        exact this
    · rw [valDigits_append, valDigits_zeros]
      simp only [Nat.zero_mul]
      rw [hval 0]
      simp

theorem parseDigits_padZeros (k n : Nat) (h1 : 1 ≤ k) (h2 : n < 10 ^ k)
    (rest : List Char) :
    parseDigits k 0 ((padZeros k n).data ++ rest) = some (n, rest) := by
  obtain ⟨hl, hd, hv⟩ := padZeros_spec k n h1 h2
  have := parseDigits_exact (padZeros k n).data rest 0 hd
  rw [hl, hv] at this
  exact this

theorem natToString_digits (n : Nat) :
    (natToString n).data ≠ [] ∧ (natToString n).data.all Char.isDigit = true ∧
      valDigits 0 (natToString n).data = n := by
  by_cases h0 : n = 0
  · subst h0
    refine ⟨by simp [natToString], by simp [natToString], ?_⟩
    simp [natToString, valDigits]
  · obtain ⟨hall, hval, _⟩ := natDigitsAux_spec n n (le_refl n)
    have hdata : (natToString n).data = (natDigitsAux n n).reverse := by
      simp only [natToString, if_neg h0]
    rw [hdata]
    have hv := hval 0
    simp only [Nat.zero_mul, Nat.zero_add] at hv
    refine ⟨?_, by simp [List.all_reverse]; exact fun c hc =>
      List.all_eq_true.mp hall c hc, hv⟩
    intro hnil
    rw [hnil] at hv
    exact h0 (by simpa [valDigits] using hv.symm)

theorem pyInt?_intToString (i : Int) : pyInt? (intToString i) = some i := by
  by_cases hneg : i < 0
  · have hdata : (intToString i).toList = '-' :: (natToString (-i).toNat).data := by
      simp only [intToString, if_pos hneg]
      rfl
    obtain ⟨hne, hall, hval⟩ := natToString_digits (-i).toNat
    rw [pyInt?, hdata]
    simp only [if_pos rfl, digitsVal?, hall, Bool.and_true]
    have hne' : (natToString (-i).toNat).data.isEmpty = false := by
      cases hh : (natToString (-i).toNat).data with
      | nil => exact absurd hh hne
      | cons a l => rfl
    rw [hne']
    simp [hval]
    omega
  · have hidata : intToString i = natToString i.toNat := by
      simp only [intToString, if_neg hneg]
    obtain ⟨hne, hall, hval⟩ := natToString_digits i.toNat
    obtain ⟨c, cs, hcons⟩ : ∃ c cs, (natToString i.toNat).data = c :: cs := by
      cases hh : (natToString i.toNat).data with
      | nil => exact absurd hh hne
      | cons a l => exact ⟨a, l, rfl⟩
    have hcd : c.isDigit = true := by
      have := List.all_eq_true.mp hall c (by rw [hcons]; exact List.mem_cons_self _ _)
      exact this
    have hcne : c ≠ '-' := by
      intro hh
      rw [hh] at hcd
      exact absurd hcd (by decide)
    have htl : (natToString i.toNat).toList = c :: cs := hcons
    have hbranch : pyInt? (natToString i.toNat) =
        (digitsVal? (c :: cs)).map fun n => (n : Int) := by
      rw [pyInt?, htl]
      simp [hcne]
    have hne' : (natToString i.toNat).data.isEmpty = false := by
      cases hh : (natToString i.toNat).data with
      | nil => exact absurd hh hne
      | cons a l => rfl
    rw [hidata, hbranch, ← hcons, digitsVal?, hall, hne']
    simp [hval, Int.toNat_of_nonneg (le_of_not_lt hneg)]

theorem string_data_append (a b : String) : (a ++ b).data = a.data ++ b.data := rfl

theorem expectChar_cons (c : Char) (rest : List Char) :
    expectChar c (c :: rest) = some rest := by
  simp [expectChar]

theorem dateMatch_assembled (y m d : Nat) (hY : y < 10000) (hM : m < 100)
    (hD : d < 100) (rest : List Char) :
    dateMatch ⟨(padZeros 4 y).data ++ '-' :: ((padZeros 2 m).data ++ '-' ::
      ((padZeros 2 d).data ++ rest))⟩ = some (y, m, d, matchTime rest) := by
  have h4 := parseDigits_padZeros 4 y (by norm_num) (by simpa using hY)
    ('-' :: ((padZeros 2 m).data ++ '-' :: ((padZeros 2 d).data ++ rest)))
  have hm2 := parseDigits_padZeros 2 m (by norm_num) (by simpa using hM)
    ('-' :: ((padZeros 2 d).data ++ rest))
  have hd2 := parseDigits_padZeros 2 d (by norm_num) (by simpa using hD) rest
  rw [dateMatch]
  have htl : (⟨(padZeros 4 y).data ++ '-' :: ((padZeros 2 m).data ++ '-' ::
      ((padZeros 2 d).data ++ rest))⟩ : String).toList =
      (padZeros 4 y).data ++ '-' :: ((padZeros 2 m).data ++ '-' ::
        ((padZeros 2 d).data ++ rest)) := rfl
  rw [htl, h4]
  simp only [Option.bind_eq_bind, Option.some_bind]
  rw [expectChar_cons]
  simp only [Option.some_bind]
  rw [hm2]
  simp only [Option.some_bind]
  rw [expectChar_cons]
  simp only [Option.some_bind]
  rw [hd2]
  rfl

theorem matchTime_plain (h mi s : Nat) (hh : h < 100) (hmi : mi < 100)
    (hs : s < 100) :
    matchTime ('T' :: ((padZeros 2 h).data ++ ':' :: ((padZeros 2 mi).data ++
      ':' :: ((padZeros 2 s).data ++ ['Z'])))) = some (h, mi, s, none) := by
  have hh2 := parseDigits_padZeros 2 h (by norm_num) (by simpa using hh)
    (':' :: ((padZeros 2 mi).data ++ ':' :: ((padZeros 2 s).data ++ ['Z'])))
  have hm2 := parseDigits_padZeros 2 mi (by norm_num) (by simpa using hmi)
    (':' :: ((padZeros 2 s).data ++ ['Z']))
  have hs2 := parseDigits_padZeros 2 s (by norm_num) (by simpa using hs) ['Z']
  rw [matchTime, expectChar_cons]
  simp only [Option.bind_eq_bind, Option.some_bind]
  rw [hh2]
  simp only [Option.some_bind]
  rw [expectChar_cons]
  simp only [Option.some_bind]
  rw [hm2]
  simp only [Option.some_bind]
  rw [expectChar_cons]
  simp only [Option.some_bind]
  rw [hs2]
  simp only [Option.some_bind]
  rfl

theorem matchTime_micro (h mi s us : Nat) (hh : h < 100) (hmi : mi < 100)
    (hs : s < 100) (hus : us < 1000000) :
    matchTime ('T' :: ((padZeros 2 h).data ++ ':' :: ((padZeros 2 mi).data ++
      ':' :: ((padZeros 2 s).data ++ '.' :: ((padZeros 6 us).data ++ ['Z']))))) =
      some (h, mi, s, some us) := by
  have hh2 := parseDigits_padZeros 2 h (by norm_num) (by simpa using hh)
    (':' :: ((padZeros 2 mi).data ++ ':' :: ((padZeros 2 s).data ++
      '.' :: ((padZeros 6 us).data ++ ['Z']))))
  have hm2 := parseDigits_padZeros 2 mi (by norm_num) (by simpa using hmi)
    (':' :: ((padZeros 2 s).data ++ '.' :: ((padZeros 6 us).data ++ ['Z'])))
  have hs2 := parseDigits_padZeros 2 s (by norm_num) (by simpa using hs)
    ('.' :: ((padZeros 6 us).data ++ ['Z']))
  have hus6 := parseDigits_padZeros 6 us (by norm_num) (by simpa using hus) ['Z']
  rw [matchTime, expectChar_cons]
  simp only [Option.bind_eq_bind, Option.some_bind]
  rw [hh2]
  simp only [Option.some_bind]
  rw [expectChar_cons]
  simp only [Option.some_bind]
  rw [hm2]
  simp only [Option.some_bind]
  rw [expectChar_cons]
  simp only [Option.some_bind]
  rw [hs2]
  simp only [Option.some_bind]
  rw [hus6]
  simp [expectChar]

mutual

theorem jToSG_serialize (v : SGValue) (h : jsonPure v = true) :
    jToSG (serialize v) = v := by
  cases v with
  | vnull => rfl
  | vbool b => rfl
  | vint n => rfl
  | vstr s => rfl
  | vdate d => exact absurd h (by simp [jsonPure])
  | vdatetime d => exact absurd h (by simp [jsonPure])
  | vlist xs =>
      have hxs : jsonPureList xs = true := by simpa [jsonPure] using h
      show SGValue.vlist (jToSGList (serializeList xs)) = SGValue.vlist xs
      rw [jToSGList_serializeList xs hxs]
  | vdict m =>
      have hm : jsonPureDict m = true := by simpa [jsonPure] using h
      show SGValue.vdict (jToSGDict (serializeDict m)) = SGValue.vdict m
      rw [jToSGDict_serializeDict m hm]

theorem jToSGList_serializeList (xs : List SGValue) (h : jsonPureList xs = true) :
    jToSGList (serializeList xs) = xs := by
  cases xs with
  | nil => rfl
  | cons x rest =>
      have hx : jsonPure x = true ∧ jsonPureList rest = true := by
        simpa [jsonPureList, Bool.and_eq_true] using h
      show jToSG (serialize x) :: jToSGList (serializeList rest) = x :: rest
      rw [jToSG_serialize x hx.1, jToSGList_serializeList rest hx.2]

theorem jToSGDict_serializeDict (m : List (String × SGValue))
    (h : jsonPureDict m = true) : jToSGDict (serializeDict m) = m := by
  cases m with
  | nil => rfl
  | cons kv rest =>
      obtain ⟨k, v⟩ := kv
      have hx : jsonPure v = true ∧ jsonPureDict rest = true := by
        simpa [jsonPureDict, Bool.and_eq_true] using h
      show (k, jToSG (serialize v)) :: jToSGDict (serializeDict rest) =
        (k, v) :: rest
      rw [jToSG_serialize v hx.1, jToSGDict_serializeDict rest hx.2]

end

/-- A safe top-level value survives serialization and field restoration. -/
theorem restore_serialize (v : SGValue) (h : safeTopValue v = true) :
    restoreField (serialize v) = .ok v := by
  cases v with
  | vnull => rfl
  | vbool b => rfl
  | vint n => rfl
  | vstr s =>
      have hnone : dateMatch s = none := by
        simpa [safeTopValue, Option.isNone_iff_eq_none] using h
      show restoreField (.jstr s) = .ok (.vstr s)
      rw [restoreField, hnone]
  | vdate d =>
      obtain ⟨⟨hY, hM⟩, hD⟩ : (d.year < 10000 ∧ d.month < 100) ∧ d.day < 100 := by
        simpa [safeTopValue, Bool.and_eq_true] using h
      have hdata : isoformatDate d =
          ⟨(padZeros 4 d.year).data ++ '-' :: ((padZeros 2 d.month).data ++
            '-' :: ((padZeros 2 d.day).data ++ []))⟩ := by
        apply congrArg String.mk
        show (isoformatDate d).data = _
        simp [isoformatDate, string_data_append]
      show restoreField (.jstr (isoformatDate d)) = .ok (.vdate d)
      rw [restoreField, hdata, dateMatch_assembled d.year d.month d.day hY hM hD []]
      rfl

  | vdatetime d =>
      obtain ⟨⟨⟨⟨⟨⟨⟨hY, hM⟩, hD⟩, hh⟩, hmi⟩, hs⟩, hus0⟩, hus⟩ :
          ((((((d.year < 10000 ∧ d.month < 100) ∧ d.day < 100) ∧ d.hour < 100) ∧
            d.minute < 100) ∧ d.second < 100) ∧ ¬d.microsecond = 0) ∧
            d.microsecond < 1000000 := by
        simpa [safeTopValue, Bool.and_eq_true] using h
      have hdata : isoformatDateTime d ++ "Z" =
          ⟨(padZeros 4 d.year).data ++ '-' :: ((padZeros 2 d.month).data ++
            '-' :: ((padZeros 2 d.day).data ++
              ('T' :: ((padZeros 2 d.hour).data ++ ':' ::
                ((padZeros 2 d.minute).data ++ ':' ::
                  ((padZeros 2 d.second).data ++ '.' ::
                    ((padZeros 6 d.microsecond).data ++ ['Z'])))))))⟩ := by
        apply congrArg String.mk
        show (isoformatDateTime d ++ "Z").data = _
        simp [isoformatDateTime, string_data_append, hus0]
      show restoreField (.jstr (isoformatDateTime d ++ "Z")) = .ok (.vdatetime d)
      rw [restoreField, hdata,
        dateMatch_assembled d.year d.month d.day hY hM hD _,
        matchTime_micro d.hour d.minute d.second d.microsecond hh hmi hs hus]
  | vlist xs =>
      have hxs : jsonPureList xs = true := by simpa [safeTopValue] using h
      show Except.ok (SGValue.vlist (jToSGList (serializeList xs))) =
        Except.ok (SGValue.vlist xs)
      rw [jToSGList_serializeList xs hxs]
  | vdict m =>
      have hm : jsonPureDict m = true := by simpa [safeTopValue] using h
      show Except.ok (SGValue.vdict (jToSGDict (serializeDict m))) =
        Except.ok (SGValue.vdict m)
      rw [jToSGDict_serializeDict m hm]

/-- Restoring the serialized fields of a safe record recovers the record. -/
theorem load_fields (e : Entity) (h : safeRecord e = true) :
    ((e.map fun kv => (kv.1, serialize kv.2)).mapM fun kv => do
        let v' ← restoreField kv.2
        Except.ok (kv.1, v')) = Except.ok e := by
  induction e with
  | nil => rfl
  | cons kv rest ih =>
      obtain ⟨hx, hrest⟩ : safeTopValue kv.2 = true ∧ safeRecord rest = true := by
        simpa [safeRecord, Bool.and_eq_true] using h
      simp only [List.map_cons, List.mapM_cons]
      rw [restore_serialize kv.2 hx, ih hrest]
      rfl

/-- Restoring a serialized type map of safe records recovers it, ids
included. -/
theorem load_type (recs : TypeStore)
    (h : recs.all (fun ie => safeRecord ie.2) = true) :
    ((recs.map fun ie =>
        (intToString ie.1, ie.2.map fun kv => (kv.1, serialize kv.2))).mapM
      fun sr => do
        let eid ← match pyInt? sr.1 with
          | some i => Except.ok i
          | none => Except.error (SGErr.valueError "invalid literal for int()")
        let fields ← sr.2.mapM fun kv => do
          let v' ← restoreField kv.2
          Except.ok (kv.1, v')
        Except.ok (eid, fields)) = Except.ok recs := by
  induction recs with
  | nil => rfl
  | cons ie rest ih =>
      obtain ⟨hx, hrest⟩ : safeRecord ie.2 = true ∧
          rest.all (fun ie => safeRecord ie.2) = true := by
        simpa [Bool.and_eq_true] using h
      simp only [List.map_cons, List.mapM_cons]
      rw [load_fields ie.2 hx, ih hrest, pyInt?_intToString ie.1]
      rfl

/-- Restoring the whole serialized store of a safe state recovers it. -/
theorem load_store (store : List (String × TypeStore))
    (h : store.all (fun tp => tp.2.all fun ie => safeRecord ie.2) = true) :
    ((store.map fun tp =>
        (tp.1, tp.2.map fun ie =>
          (intToString ie.1, ie.2.map fun kv => (kv.1, serialize kv.2)))).mapM
      fun tp => do
        let recs ← tp.2.mapM fun sr => do
          let eid ← match pyInt? sr.1 with
            | some i => Except.ok i
            | none => Except.error (SGErr.valueError "invalid literal for int()")
          let fields ← sr.2.mapM fun kv => do
            let v' ← restoreField kv.2
            Except.ok (kv.1, v')
          Except.ok (eid, fields)
        Except.ok (tp.1, recs)) = Except.ok store := by
  induction store with
  | nil => rfl
  | cons tp rest ih =>
      obtain ⟨hx, hrest⟩ : tp.2.all (fun ie => safeRecord ie.2) = true ∧
          rest.all (fun tp => tp.2.all fun ie => safeRecord ie.2) = true := by
        simpa [Bool.and_eq_true] using h
      simp only [List.map_cons, List.mapM_cons]
      rw [load_type tp.2 hx, ih hrest]
      rfl

/-- The per-type id-counter step of `sgmock_json_load`. -/
def loadIdsStep (acc : List (String × Int)) (tp : String × TypeStore) :
    List (String × Int) :=
  match tp.2.map fun r => r.1 with
  | [] => acc
  | i :: is => mset acc tp.1 (is.foldl max i)

theorem loadIds_absent (l : List (String × TypeStore)) :
    ∀ (acc : List (String × Int)) (t : String), (∀ tp ∈ l, tp.1 ≠ t) →
      mget (l.foldl loadIdsStep acc) t = mget acc t := by
  induction l with
  | nil => intro acc t _; rfl
  | cons tp rest ih =>
      intro acc t h
      have h1 : tp.1 ≠ t := h tp (List.mem_cons_self _ _)
      have hrest : ∀ tp' ∈ rest, tp'.1 ≠ t :=
        fun tp' h' => h tp' (List.mem_cons_of_mem _ h')
      rw [List.foldl_cons, ih (loadIdsStep acc tp) t hrest]
      rw [loadIdsStep]
      cases tp.2.map fun r => r.1 with
      | nil => rfl
      | cons i is => exact mget_mset_ne _ _ _ _ fun hh => h1 hh.symm

theorem loadIds_get (store : List (String × TypeStore)) :
    ∀ (acc : List (String × Int)) (t : String) (recs : TypeStore),
      mget store t = some recs → (store.map Prod.fst).Nodup →
      mget acc t = none →
      mget (store.foldl loadIdsStep acc) t =
        (match recs.map fun r => r.1 with
          | [] => none
          | i :: is => some (is.foldl max i)) := by
  induction store with
  | nil => intro acc t recs hget _ _; simp [mget] at hget
  | cons tp rest ih =>
      intro acc t recs hget hnd hacc
      obtain ⟨hnotin, hnd'⟩ := List.nodup_cons.mp hnd
      by_cases ht : tp.1 = t
      · have hrecs : tp.2 = recs := by
          obtain ⟨t0, recs0⟩ := tp
          simp only [mget, if_pos ht] at hget
          simpa using hget
        have habsent : ∀ tp' ∈ rest, tp'.1 ≠ t := by
          intro tp' h' hh
          exact hnotin (ht ▸ hh ▸ List.mem_map_of_mem Prod.fst h')
        rw [List.foldl_cons, loadIds_absent rest _ t habsent]
        rw [loadIdsStep, hrecs, ← ht]
        cases recs.map fun r => r.1 with
        | nil =>
            rw [ht]
            exact hacc
        | cons i is => exact mget_mset_self _ _ _
      · obtain ⟨t0, recs0⟩ := tp
        have ht' : t0 ≠ t := ht
        simp only [mget, if_neg ht'] at hget
        have hacc' : mget (loadIdsStep acc (t0, recs0)) t = none := by
          rw [loadIdsStep]
          cases recs0.map fun r => r.1 with
          | nil => exact hacc
          | cons i is =>
              rw [mget_mset_ne _ _ _ _ fun hh => ht' hh.symm]
              exact hacc
        rw [List.foldl_cons]
        exact ih _ t recs hget hnd' hacc'

theorem foldl_max_spec :
    ∀ (is : List Int) (i : Int),
      is.foldl max i ∈ i :: is ∧ ∀ j ∈ i :: is, j ≤ is.foldl max i := by
  intro is
  induction is with
  | nil =>
      intro i
      refine ⟨List.mem_cons_self _ _, ?_⟩
      intro j hj
      rw [List.mem_singleton] at hj
      exact le_of_eq hj
  | cons k ks ih =>
      intro i
      obtain ⟨ihm, ihb⟩ := ih (max i k)
      constructor
      · rw [List.foldl_cons]
        rcases List.mem_cons.mp ihm with hh | hh
        · rcases max_choice i k with hc | hc
          · rw [hh, hc]
            exact List.mem_cons_self _ _
          · rw [hh, hc]
            exact List.mem_cons_of_mem _ (List.mem_cons_self _ _)
        · exact List.mem_cons_of_mem _ (List.mem_cons_of_mem _ hh)
      · intro j hj
        rw [List.foldl_cons]
        rcases List.mem_cons.mp hj with hh | hh
        · calc j = i := hh
            _ ≤ max i k := le_max_left _ _
            _ ≤ ks.foldl max (max i k) := ihb _ (List.mem_cons_self _ _)
        · rcases List.mem_cons.mp hh with hh2 | hh2
          · calc j = k := hh2
              _ ≤ max i k := le_max_right _ _
              _ ≤ ks.foldl max (max i k) := ihb _ (List.mem_cons_self _ _)
          · exact ihb j (List.mem_cons_of_mem _ hh2)

/-! ### C8 -/

/-- C8, amended: for stores whose record fields are safe to serialize (no
date-shaped plain strings, no nested dates/datetimes, printable date
components and nonzero datetime microseconds), loading the dump
reconstructs the same live store, clears the deleted store, and recomputes
each type's id counter as the maximum id present for the type (no counter
for types with no records). -/
theorem C8_round_trip (sg : Shotgun) (hsafe : safeStore sg = true)
    (hnd : (sg._store.map Prod.fst).Nodup) :
    ∃ sg', sgmock_json_load (sgmock_json_dump sg) = .ok sg' ∧
      sg'._store = sg._store ∧ sg'._deleted = [] ∧
      (∀ t recs, mget sg._store t = some recs →
        mget sg'._ids t =
          (match recs.map fun r => r.1 with
            | [] => none
            | i :: is => some (is.foldl max i))) ∧
      (∀ (i : Int) (is : List Int),
        is.foldl max i ∈ i :: is ∧ ∀ j ∈ i :: is, j ≤ is.foldl max i) := by
  have hsafe' : sg._store.all (fun tp => tp.2.all fun ie => safeRecord ie.2) =
      true := hsafe
  refine ⟨⟨sg._store, sg._store.foldl loadIdsStep [], []⟩, ?_, rfl, rfl, ?_, ?_⟩
  · rw [sgmock_json_load, sgmock_json_dump]
    rw [load_store sg._store hsafe']
    simp only [bind, Except.bind]
    rfl
  · intro t recs hget
    exact loadIds_get sg._store [] t recs hget hnd rfl
  · exact fun i is => foldl_max_spec is i

/-- C8 witness: a concrete safe store (datetime, date, string, int, null,
bool, list fields over two types) round-trips exactly. -/
theorem C8_round_trip_witness :
    ∃ sg', sgmock_json_load (sgmock_json_dump c8SG) = .ok sg' ∧
      sg'._store = c8SG._store ∧ sg'._deleted = [] ∧
      (∀ t recs, mget c8SG._store t = some recs →
        mget sg'._ids t =
          (match recs.map fun r => r.1 with
            | [] => none
            | i :: is => some (is.foldl max i))) ∧
      (∀ (i : Int) (is : List Int),
        is.foldl max i ∈ i :: is ∧ ∀ j ∈ i :: is, j ≤ is.foldl max i) :=
  C8_round_trip c8SG rfl (by decide)

/-- C8 counterexample: a record field holding the plain string
`"2020-01-01"` does not round-trip: the loaded store holds a `date` value
instead, so `load(dump(store))` does not reconstruct records equal to the
originals for every store. -/
theorem C8_counterexample :
    sgmock_json_load (sgmock_json_dump c8CexSG) =
      .ok ⟨[("Shot", [(1, [("code", .vdate ⟨2020, 1, 1⟩)])])], [("Shot", 1)], []⟩ ∧
      [("Shot", [(1, [("code", SGValue.vdate ⟨2020, 1, 1⟩)])])] ≠
        c8CexSG._store := by
  constructor
  · rfl
  · intro h
    rw [show c8CexSG._store = [("Shot", [(1, [("code", SGValue.vstr "2020-01-01")])])]
      from rfl] at h
    simp at h

/-! ### C5: relation-level lemmas -/

theorem applyRelation_unknown (rel field : String) (values : List SGValue)
    (h : _filters rel = none) :
    applyRelation rel field values = .error (unknownRelationError rel) := by
  rw [applyRelation, h]

theorem applyRelation_known (rel field : String) (values : List SGValue)
    (hargs : relArgsOK rel values = true)
    (hsome : (_filters rel).isSome = true) :
    ∃ p, applyRelation rel field values = .ok p := by
  by_cases h1 : rel = "is"
  · subst h1
    obtain ⟨v, hv⟩ := List.length_eq_one.mp (by simpa [relArgsOK] using hargs)
    subst hv
    exact ⟨_, rfl⟩
  by_cases h2 : rel = "is_not"
  · subst h2
    obtain ⟨v, hv⟩ := List.length_eq_one.mp (by simpa [relArgsOK] using hargs)
    subst hv
    exact ⟨_, rfl⟩
  by_cases h3 : rel = "in"
  · subst h3
    have hall : values.all isHashable = true := by simpa [relArgsOK] using hargs
    refine ⟨fun entity => values.any fun v => pyEq (egetF entity field) v, ?_⟩
    show InFilter field values = _
    simp [InFilter, hall]
  by_cases h4 : rel = "not_in"
  · subst h4
    have hall : values.all isHashable = true := by simpa [relArgsOK] using hargs
    refine ⟨fun entity => !(values.any fun v => pyEq (egetF entity field) v), ?_⟩
    show NotWrap InFilter field values = _
    simp [NotWrap, InFilter, hall]
    rfl
  by_cases h5 : rel = "less_than"
  · subst h5
    obtain ⟨v, hv⟩ := List.length_eq_one.mp (by simpa [relArgsOK] using hargs)
    subst hv
    exact ⟨_, rfl⟩
  by_cases h6 : rel = "greater_than"
  · subst h6
    obtain ⟨v, hv⟩ := List.length_eq_one.mp (by simpa [relArgsOK] using hargs)
    subst hv
    exact ⟨_, rfl⟩
  by_cases h7 : rel = "starts_with"
  · subst h7
    obtain ⟨v, hv⟩ := List.length_eq_one.mp (by simpa [relArgsOK] using hargs)
    subst hv
    exact ⟨_, rfl⟩
  by_cases h8 : rel = "ends_with"
  · subst h8
    obtain ⟨v, hv⟩ := List.length_eq_one.mp (by simpa [relArgsOK] using hargs)
    subst hv
    exact ⟨_, rfl⟩
  exact absurd hsome (by simp [_filters, h1, h2, h3, h4, h5, h6, h7, h8])

/-- Both flat spellings feed `applyRelation` with the extracted values. -/
theorem compile_fflat (field rel : String) (rest : List SGValue) :
    _compile_condition (.fflat field rel rest) =
      applyRelation rel field (flatValues rest) := by
  rw [_compile_condition.eq_def]
  rcases rest with _ | ⟨v, vs⟩
  · rfl
  · rcases vs with _ | ⟨v2, r2⟩
    · cases v <;> rfl
    · cases v <;> rfl

/-- A known relation with acceptable arguments yields a predicate; an
unknown one yields the `MockError`: the flat condition case. -/
theorem compileCond_fflat (field rel : String) (rest : List SGValue)
    (hwf : condWF (.fflat field rel rest) = true) :
    condSpec (.fflat field rel rest) := by
  have hwf' : relArgsOK rel (flatValues rest) = true := by
    rw [condWF] at hwf; exact hwf
  have hu : condHasUnknown (.fflat field rel rest) = (_filters rel).isNone := by
    rw [condHasUnknown]
  unfold condSpec
  rw [hu, compile_fflat]
  constructor
  · intro h
    have hn : _filters rel = none := by
      cases hm : _filters rel
      · rfl
      · rw [hm] at h; exact Bool.noConfusion h
    exact ⟨rel, hn, applyRelation_unknown rel field _ hn⟩
  · intro h
    have hs : (_filters rel).isSome = true := by
      cases hm : _filters rel
      · rw [hm] at h; exact Bool.noConfusion h
      · rfl
    exact applyRelation_known rel field _ hwf' hs

/-- The mapping condition case without `filter_operator`: the registry is
consulted for the `relation` key. -/
theorem compileCond_fdict_rel (fo lo : Option String)
    (conds filts : Option (List Filt)) (rel path : Option String)
    (vals : Option (List SGValue)) (hfo : fo.isSome = false)
    (hwf : condWF (.fdict fo lo conds filts rel path vals) = true) :
    condSpec (.fdict fo lo conds filts rel path vals) := by
  have hfo' : ¬ fo.isSome = true := by simp [hfo]
  simp only [condWF.eq_def] at hwf
  rw [if_neg hfo'] at hwf
  rcases rel with _ | r
  · simp at hwf
  rcases path with _ | pth
  · simp at hwf
  rcases vals with _ | vs
  · simp at hwf
  have hwf' : relArgsOK r vs = true := hwf
  have hu : condHasUnknown
        (.fdict fo lo conds filts (some r) (some pth) (some vs)) =
      (_filters r).isNone := by
    simp only [condHasUnknown.eq_def]
    rw [if_neg hfo']
  have hc : _compile_condition
        (.fdict fo lo conds filts (some r) (some pth) (some vs)) =
      applyRelation r pth vs := by
    simp only [_compile_condition.eq_def]
    rw [if_neg hfo']
  unfold condSpec
  rw [hu, hc]
  constructor
  · intro h
    have hn : _filters r = none := by
      cases hm : _filters r
      · rfl
      · rw [hm] at h; exact Bool.noConfusion h
    exact ⟨r, hn, applyRelation_unknown r pth vs hn⟩
  · intro h
    have hs : (_filters r).isSome = true := by
      cases hm : _filters r
      · rw [hm] at h; exact Bool.noConfusion h
      · rfl
    exact applyRelation_known r pth vs hwf' hs

/-- `compileConds` on the empty list succeeds with no predicates. -/
theorem compileConds_nil : listSpec [] := by
  unfold listSpec
  refine ⟨fun h => ?_, fun _ => ⟨[], by rw [compileConds]⟩⟩
  rw [listHasUnknown] at h
  exact Bool.noConfusion h

/-- The C5 dichotomy steps through `compileConds`: children compile left
to right and the first unknown relation aborts the list. -/
theorem compileConds_cons (c : Filt) (cs' : List Filt)
    (hc : condSpec c) (ht : listSpec cs') : listSpec (c :: cs') := by
  obtain ⟨hcE, hcO⟩ := hc
  obtain ⟨htE, htO⟩ := ht
  have hstep : compileConds (c :: cs') =
      _compile_condition c >>= fun p =>
        compileConds cs' >>= fun ps => Except.ok (p :: ps) := by
    rw [compileConds]
  unfold listSpec
  rw [listHasUnknown]
  by_cases h1 : condHasUnknown c = true
  · obtain ⟨name, hn, he⟩ := hcE h1
    have hval : compileConds (c :: cs') = .error (unknownRelationError name) := by
      rw [hstep, he]; rfl
    rw [hval, h1]
    refine ⟨fun _ => ⟨name, hn, rfl⟩, fun hfalse => ?_⟩
    simp at hfalse
  · have h1' : condHasUnknown c = false := by simpa using h1
    obtain ⟨p, hp⟩ := hcO h1'
    have hval1 : compileConds (c :: cs') =
        compileConds cs' >>= fun ps => Except.ok (p :: ps) := by
      rw [hstep, hp]; rfl
    rw [h1']
    simp only [Bool.false_or]
    by_cases h2 : listHasUnknown cs' = true
    · obtain ⟨name, hn, he⟩ := htE h2
      have hval : compileConds (c :: cs') = .error (unknownRelationError name) := by
        rw [hval1, he]; rfl
      rw [hval, h2]
      exact ⟨fun _ => ⟨name, hn, rfl⟩, fun hfalse => Bool.noConfusion hfalse⟩
    · have h2' : listHasUnknown cs' = false := by simpa using h2
      obtain ⟨ps, hps⟩ := htO h2'
      have hval : compileConds (c :: cs') = .ok (p :: ps) := by
        rw [hval1, hps]; rfl
      rw [hval, h2']
      exact ⟨fun h => Bool.noConfusion h, fun _ => ⟨p :: ps, rfl⟩⟩

/-- The C5 dichotomy lifts through a valid group operator, which is
checked before any child compiles. -/
theorem compileOp_spec (op : String) (cs : List Filt) (hop : opValid op = true)
    (hcs : listSpec cs) : opSpec op cs := by
  obtain ⟨hcsE, hcsO⟩ := hcs
  unfold opSpec
  by_cases h1 : op = "any" ∨ op = "or"
  · have hc : compileOp op cs = (compileConds cs).map Or := by
      rw [compileOp, if_pos h1]
    rw [hc]
    refine ⟨fun hu => ?_, fun hu => ?_⟩
    · obtain ⟨name, hn, he⟩ := hcsE hu
      exact ⟨name, hn, by rw [he]; rfl⟩
    · obtain ⟨ps, hp⟩ := hcsO hu
      exact ⟨Or ps, by rw [hp]; rfl⟩
  · have h2 : op = "all" ∨ op = "and" := by
      have h3 := hop
      simp [opValid] at h3
      tauto
    have hc : compileOp op cs = (compileConds cs).map And := by
      rw [compileOp, if_neg h1, if_pos h2]
    rw [hc]
    refine ⟨fun hu => ?_, fun hu => ?_⟩
    · obtain ⟨name, hn, he⟩ := hcsE hu
      exact ⟨name, hn, by rw [he]; rfl⟩
    · obtain ⟨ps, hp⟩ := hcsO hu
      exact ⟨And ps, by rw [hp]; rfl⟩

/-- The C5 dichotomy for every condition and every condition list, by
strong induction on size. -/
theorem compile_spec_all (n : Nat) :
    (∀ c : Filt, sizeOf c ≤ n → condWF c = true → condSpec c) ∧
      (∀ cs : List Filt, sizeOf cs ≤ n → listWF cs = true → listSpec cs) := by
  induction n with
  | zero =>
      constructor
      · intro c hsz _
        exfalso
        cases c <;> simp at hsz
      · intro cs hsz _
        exfalso
        cases cs <;> simp at hsz
  | succ n ih =>
      obtain ⟨ihC, ihL⟩ := ih
      constructor
      · intro c hsz hwf
        cases c with
        | fflat field rel rest => exact compileCond_fflat field rel rest hwf
        | fdict fo lo conds filts rel path vals =>
            by_cases hfo : fo.isSome = true
            · simp only [condWF.eq_def] at hwf
              rw [if_pos hfo] at hwf
              rcases lo with _ | op <;> rcases conds with _ | cs
              · rcases filts with _ | fs
                · simp at hwf
                · have hwf' : opValid (fo.getD "and") = true ∧ listWF fs = true := by
                    simpa using hwf
                  have hfs : sizeOf fs ≤ n := by simp at hsz; omega
                  have hu : condHasUnknown
                        (.fdict fo none none (some fs) rel path vals) =
                      listHasUnknown fs := by
                    simp only [condHasUnknown.eq_def]
                    rw [if_pos hfo]
                  have hc : _compile_condition
                        (.fdict fo none none (some fs) rel path vals) =
                      compileOp (fo.getD "and") fs := by
                    simp only [_compile_condition.eq_def]
                    rw [if_pos hfo]
                    simp only [_compile_filters.eq_def]
                  unfold condSpec
                  rw [hu, hc]
                  exact compileOp_spec (fo.getD "and") fs hwf'.1
                    (ihL fs hfs hwf'.2)
              · rcases filts with _ | fs
                · simp at hwf
                · have hwf' : opValid (fo.getD "and") = true ∧ listWF fs = true := by
                    simpa using hwf
                  have hfs : sizeOf fs ≤ n := by simp at hsz; omega
                  have hu : condHasUnknown
                        (.fdict fo none (some cs) (some fs) rel path vals) =
                      listHasUnknown fs := by
                    simp only [condHasUnknown.eq_def]
                    rw [if_pos hfo]
                  have hc : _compile_condition
                        (.fdict fo none (some cs) (some fs) rel path vals) =
                      compileOp (fo.getD "and") fs := by
                    simp only [_compile_condition.eq_def]
                    rw [if_pos hfo]
                    simp only [_compile_filters.eq_def]
                  unfold condSpec
                  rw [hu, hc]
                  exact compileOp_spec (fo.getD "and") fs hwf'.1
                    (ihL fs hfs hwf'.2)
              · rcases filts with _ | fs
                · simp at hwf
                · have hwf' : opValid (fo.getD "and") = true ∧ listWF fs = true := by
                    simpa using hwf
                  have hfs : sizeOf fs ≤ n := by simp at hsz; omega
                  have hu : condHasUnknown
                        (.fdict fo (some op) none (some fs) rel path vals) =
                      listHasUnknown fs := by
                    simp only [condHasUnknown.eq_def]
                    rw [if_pos hfo]
                  have hc : _compile_condition
                        (.fdict fo (some op) none (some fs) rel path vals) =
                      compileOp (fo.getD "and") fs := by
                    simp only [_compile_condition.eq_def]
                    rw [if_pos hfo]
                    simp only [_compile_filters.eq_def]
                  unfold condSpec
                  rw [hu, hc]
                  exact compileOp_spec (fo.getD "and") fs hwf'.1
                    (ihL fs hfs hwf'.2)
              · have hwf' : opValid op = true ∧ listWF cs = true := by
                  simpa using hwf
                have hcsz : sizeOf cs ≤ n := by simp at hsz; omega
                have hu : condHasUnknown
                      (.fdict fo (some op) (some cs) filts rel path vals) =
                    listHasUnknown cs := by
                  simp only [condHasUnknown.eq_def]
                  rw [if_pos hfo]
                have hc : _compile_condition
                      (.fdict fo (some op) (some cs) filts rel path vals) =
                    compileOp op cs := by
                  simp only [_compile_condition.eq_def]
                  rw [if_pos hfo]
                  simp only [_compile_filters.eq_def]
                unfold condSpec
                rw [hu, hc]
                exact compileOp_spec op cs hwf'.1 (ihL cs hcsz hwf'.2)
            · exact compileCond_fdict_rel fo lo conds filts rel path vals
                (by simpa using hfo) hwf
      · intro cs hsz hwf
        cases cs with
        | nil => exact compileConds_nil
        | cons c cs' =>
            rw [listWF] at hwf
            have hwf2 : condWF c = true ∧ listWF cs' = true := by simpa using hwf
            have h1 : sizeOf c ≤ n := by simp at hsz; omega
            have h2 : sizeOf cs' ≤ n := by simp at hsz; omega
            exact compileConds_cons c cs' (ihC c h1 hwf2.1) (ihL cs' h2 hwf2.2)

/-- The C5 dichotomy for a condition list, at its own size. -/
theorem compileConds_spec (cs : List Filt) (hwf : listWF cs = true) :
    listSpec cs :=
  (compile_spec_all (sizeOf cs)).2 cs le_rfl hwf

/-- The condition-level dichotomy at the top-level `filters` argument. -/
theorem compileFilters_spec (F : PyFilters) (hwf : pyFiltersWF F = true) :
    (pyFiltersHasUnknown F = true → ∃ name, _filters name = none ∧
        _compile_filters F = .error (unknownRelationError name)) ∧
      (pyFiltersHasUnknown F = false → ∃ p, _compile_filters F = .ok p) := by
  cases F with
  | plist cs =>
      have hwf' : listWF cs = true := hwf
      have hc : _compile_filters (.plist cs) = compileOp "and" cs := by
        rw [_compile_filters]
      have hu : pyFiltersHasUnknown (.plist cs) = listHasUnknown cs := rfl
      rw [hu, hc]
      exact compileOp_spec "and" cs (by decide) (compileConds_spec cs hwf')
  | pdict fo lo conds filts =>
      rcases lo with _ | op <;> rcases conds with _ | cs
      · rcases filts with _ | fs
        · simp [pyFiltersWF] at hwf
        · have hwf' : opValid (fo.getD "and") = true ∧ listWF fs = true := by
            simpa [pyFiltersWF] using hwf
          have hc : _compile_filters (.pdict fo none none (some fs)) =
              compileOp (fo.getD "and") fs := by
            simp only [_compile_filters.eq_def]
          have hu : pyFiltersHasUnknown (.pdict fo none none (some fs)) =
              listHasUnknown fs := rfl
          rw [hu, hc]
          exact compileOp_spec (fo.getD "and") fs hwf'.1
            (compileConds_spec fs hwf'.2)
      · rcases filts with _ | fs
        · simp [pyFiltersWF] at hwf
        · have hwf' : opValid (fo.getD "and") = true ∧ listWF fs = true := by
            simpa [pyFiltersWF] using hwf
          have hc : _compile_filters (.pdict fo none (some cs) (some fs)) =
              compileOp (fo.getD "and") fs := by
            simp only [_compile_filters.eq_def]
          have hu : pyFiltersHasUnknown (.pdict fo none (some cs) (some fs)) =
              listHasUnknown fs := rfl
          rw [hu, hc]
          exact compileOp_spec (fo.getD "and") fs hwf'.1
            (compileConds_spec fs hwf'.2)
      · rcases filts with _ | fs
        · simp [pyFiltersWF] at hwf
        · have hwf' : opValid (fo.getD "and") = true ∧ listWF fs = true := by
            simpa [pyFiltersWF] using hwf
          have hc : _compile_filters (.pdict fo (some op) none (some fs)) =
              compileOp (fo.getD "and") fs := by
            simp only [_compile_filters.eq_def]
          have hu : pyFiltersHasUnknown (.pdict fo (some op) none (some fs)) =
              listHasUnknown fs := rfl
          rw [hu, hc]
          exact compileOp_spec (fo.getD "and") fs hwf'.1
            (compileConds_spec fs hwf'.2)
      · have hwf' : opValid op = true ∧ listWF cs = true := by
          simpa [pyFiltersWF] using hwf
        have hc : _compile_filters (.pdict fo (some op) (some cs) filts) =
            compileOp op cs := by
          rw [_compile_filters]
        have hu : pyFiltersHasUnknown (.pdict fo (some op) (some cs) filts) =
            listHasUnknown cs := rfl
        rw [hu, hc]
        exact compileOp_spec op cs hwf'.1 (compileConds_spec cs hwf'.2)

/-- C5: for every filter expression that is otherwise well formed (valid
group operators, complete condition mappings, acceptable relation
arguments) but contains a condition naming a relation missing from the
registry, compilation fails with the `unknown filter relation` MockError,
and every `find` call over the expression — on any server state, entity
type, field list, limit, retired flag and page — aborts with that same
error and returns no results. -/
theorem C5_unknown_relation (F : PyFilters) (hwf : pyFiltersWF F = true)
    (hunk : pyFiltersHasUnknown F = true) :
    ∃ name, _filters name = none ∧
      _compile_filters F = .error (unknownRelationError name) ∧
      ∀ (sg : Shotgun) (entity_type : String) (fields : Option (List String))
        (limit : Int) (retired_only : Bool) (page : Int),
        find sg entity_type F fields limit retired_only page =
          .error (unknownRelationError name) := by
  obtain ⟨name, hn, he⟩ := (compileFilters_spec F hwf).1 hunk
  refine ⟨name, hn, he, fun sg t fields L ro P => ?_⟩
  rw [find, he]
  rfl

/-- C5 witness: a two-condition filter list whose second condition names
the unregistered relation `bogus`. -/
theorem C5_unknown_relation_witness :
    ∃ name, _filters name = none ∧
      _compile_filters c5F = .error (unknownRelationError name) ∧
      ∀ (sg : Shotgun) (entity_type : String) (fields : Option (List String))
        (limit : Int) (retired_only : Bool) (page : Int),
        find sg entity_type c5F fields limit retired_only page =
          .error (unknownRelationError name) :=
  C5_unknown_relation c5F
    (by simp [c5F, pyFiltersWF, listWF, condWF, relArgsOK, flatValues])
    (by simp [c5F, pyFiltersHasUnknown, listHasUnknown, condHasUnknown, _filters])

end Sgmock
